import Mathlib

/-!
Verification development for the dworker distributed worker runtime.

The registry (a Redis instance) is modelled as a record of hashes and sorted
sets, and each of the eight server-side Lua scripts
(src/lib/lua/addBroker.lua, getLeastLoadedBroker.lua, findOrCreateWorker.lua,
findBroker.lua, healthCheck.lua, salvageWorkers.lua, fetchWorkersToRecover.lua,
destroyWorker.lua) is embedded as a pure function from a registry state (plus
a subscriber-count oracle for PUBLISH) to a result and a new registry state.
Redis applies script effects as they happen and does not roll back on a script
error, so a script that can abort returns the state reached at the abort point
together with an Except value.

The JavaScript side (src/lib/broker.js, src/lib/router.js, src/lib/common.js)
is embedded for the specific routines the claims mention: the broker destroy
state machine, the onCreateWorker RPC handler, the router client-socket close
handler, and the hash-key derivation.
-/

namespace DW

/-! ## Hashes and sorted sets

A Redis hash is an association list with unique keys (`hget` sees the first
binding, matching Redis where keys are unique).  A sorted set is an
association list from member to integer score; rank queries sort by
(score, member) as Redis does. -/

def hget {α : Type} (h : List (String × α)) (k : String) : Option α :=
  (h.find? (fun p => p.1 == k)).map (·.2)

def hset {α : Type} (h : List (String × α)) (k : String) (v : α) : List (String × α) :=
  (h.filter (fun p => p.1 != k)) ++ [(k, v)]

def hdel {α : Type} (h : List (String × α)) (k : String) : List (String × α) :=
  h.filter (fun p => p.1 != k)

abbrev ZSet := List (String × Int)

def zscore (z : ZSet) (m : String) : Option Int :=
  hget z m

def zadd (z : ZSet) (score : Int) (m : String) : ZSet :=
  hset z m score

def zrem (z : ZSet) (m : String) : ZSet :=
  hdel z m

def zcard (z : ZSet) : Nat :=
  z.length

def zmem (z : ZSet) (m : String) : Bool :=
  (zscore z m).isSome

/-- Redis orders sorted-set entries by score, ties broken by member name. -/
def entLE (a b : String × Int) : Prop :=
  a.2 < b.2 ∨ (a.2 = b.2 ∧ a.1 ≤ b.1)

instance entLEDec (a b : String × Int) : Decidable (entLE a b) := by
  unfold entLE; infer_instance

/-- The least entry of a sorted set: what ZRANGE z 0 0 WITHSCORES returns. -/
def zminEntry : ZSet → Option (String × Int)
  | [] => none
  | e :: es =>
    match zminEntry es with
    | none => some e
    | some m => if entLE e m then some e else some m

def insertEnt (e : String × Int) : List (String × Int) → List (String × Int)
  | [] => [e]
  | x :: xs => if entLE e x then e :: x :: xs else x :: insertEnt e xs

def sortEnts (z : ZSet) : List (String × Int) :=
  z.foldr insertEnt []

/-- ZRANK: position of a member in (score, member) order. -/
def zrank (z : ZSet) (m : String) : Option Nat :=
  (sortEnts z).findIdx? (fun p => p.1 == m)

/-- ZRANGE z i i: the entry at a given rank. -/
def zrangeAt (z : ZSet) (i : Nat) : Option (String × Int) :=
  (sortEnts z)[i]?

/-! ## Registry data model (spec section 3) -/

/-- Reserved sub-fields of a worker record's attribute bag. -/
structure WorkerAttrs where
  recoverable : Bool
  static : Bool
deriving Repr, DecidableEq

/-- A decoded `wh` worker record. -/
structure WorkerInfo where
  name : String
  brokerId : Option String
  attributes : WorkerAttrs
deriving Repr, DecidableEq

/-- A stored `wh` value: either cjson-decodable or corrupt. -/
inductive WhVal where
  | corrupt
  | ok (info : WorkerInfo)
deriving Repr, DecidableEq

/-- A decoded `bh` broker record; `addr` is absent in old-version records. -/
structure BrokerInfo where
  cn : String
  st : String
  addr : Option String
deriving Repr, DecidableEq

/-- A stored `bh` value: either cjson-decodable or corrupt. -/
inductive BhVal where
  | corrupt
  | ok (info : BrokerInfo)
deriving Repr, DecidableEq

/-- A pubsub payload: liveness probe (empty payload), or a JSON signal. -/
inductive PubMsg where
  | probe
  | salvageSig (clustername brokerId : String)
  | recoverSig
deriving Repr, DecidableEq

/-- The `gh` global hash, with its named counters held in record fields and
the per-class creation counters in an association list.  `chPfx` models the
`chPrefix` field (the pubsub channel prefix), absent until the first join. -/
structure GH where
  chPfx : Option String
  workersCreated : Int
  workersRecovered : Int
  workersSalvaged : Int
  workersRemoved : Int
  workersBroken : Int
  brokersAdded : Int
  brokersBroken : Int
  classCounters : List (String × Int)
deriving Repr, DecidableEq

/-- The whole registry state.  `cz`, `bz` are keyed by cluster name and `wz`
by broker id; an absent key denotes the empty sorted set, as in Redis.
`published` records every PUBLISH performed, in order. -/
structure Registry where
  gh : GH
  wh : List (String × WhVal)
  bh : List (String × BhVal)
  cz : List (String × ZSet)
  bz : List (String × ZSet)
  wz : List (String × ZSet)
  rz : ZSet
  published : List (String × PubMsg)
deriving Repr, DecidableEq

def getZ (m : List (String × ZSet)) (k : String) : ZSet :=
  (hget m k).getD []

def setZ (m : List (String × ZSet)) (k : String) (z : ZSet) : List (String × ZSet) :=
  hset m k z

def publish (s : Registry) (ch : String) (msg : PubMsg) : Registry :=
  { s with published := s.published ++ [(ch, msg)] }

@[simp] theorem publish_gh (s : Registry) (ch : String) (m : PubMsg) :
    (publish s ch m).gh = s.gh := rfl

@[simp] theorem publish_wh (s : Registry) (ch : String) (m : PubMsg) :
    (publish s ch m).wh = s.wh := rfl

@[simp] theorem publish_bh (s : Registry) (ch : String) (m : PubMsg) :
    (publish s ch m).bh = s.bh := rfl

@[simp] theorem publish_cz (s : Registry) (ch : String) (m : PubMsg) :
    (publish s ch m).cz = s.cz := rfl

@[simp] theorem publish_bz (s : Registry) (ch : String) (m : PubMsg) :
    (publish s ch m).bz = s.bz := rfl

@[simp] theorem publish_wz (s : Registry) (ch : String) (m : PubMsg) :
    (publish s ch m).wz = s.wz := rfl

@[simp] theorem publish_rz (s : Registry) (ch : String) (m : PubMsg) :
    (publish s ch m).rz = s.rz := rfl

@[simp] theorem publish_published (s : Registry) (ch : String) (m : PubMsg) :
    (publish s ch m).published = s.published ++ [(ch, m)] := rfl

/-- HINCRBY gh cls 1 reads 0 for a missing field. -/
def classCounterGet (g : GH) (cls : String) : Int :=
  ((hget g.classCounters cls).getD 0)

def classCounterSet (g : GH) (cls : String) (v : Int) : GH :=
  { g with classCounters := hset g.classCounters cls v }

/-- HSETNX gh cls 0. -/
def classCounterSetNx (g : GH) (cls : String) : GH :=
  match hget g.classCounters cls with
  | some _ => g
  | none => { g with classCounters := hset g.classCounters cls 0 }

/-! ## Basic lemmas about the zset operations -/

theorem zminEntry_eq_none {z : ZSet} (h : zminEntry z = none) : z = [] := by
  cases z with
  | nil => rfl
  | cons e es =>
    simp only [zminEntry] at h
    cases hz : zminEntry es with
    | none => rw [hz] at h; exact absurd h (by simp)
    | some m => rw [hz] at h; by_cases he : entLE e m <;> simp [he] at h

theorem zminEntry_mem {z : ZSet} {e : String × Int} (h : zminEntry z = some e) : e ∈ z := by
  induction z with
  | nil => simp [zminEntry] at h
  | cons x xs ih =>
    simp only [zminEntry] at h
    cases hz : zminEntry xs with
    | none => rw [hz] at h; simp at h; simp [h]
    | some m =>
      rw [hz] at h
      by_cases he : entLE x m
      · simp [he] at h; simp [h]
      · simp [he] at h; right; exact ih (h ▸ hz)

theorem entLE_refl (a : String × Int) : entLE a a := by
  right; exact ⟨rfl, le_refl _⟩

theorem entLE_total (a b : String × Int) (h : ¬ entLE a b) : entLE b a := by
  unfold entLE at *
  push_neg at h
  rcases h with ⟨h1, h2⟩
  rcases lt_trichotomy a.2 b.2 with hlt | heq | hgt
  · exact absurd hlt (not_lt_of_le h1)
  · right; exact ⟨heq.symm, le_of_lt (h2 heq)⟩
  · left; exact hgt

theorem entLE_trans {a b c : String × Int} (hab : entLE a b) (hbc : entLE b c) : entLE a c := by
  unfold entLE at *
  rcases hab with h1 | ⟨h1, h1'⟩ <;> rcases hbc with h2 | ⟨h2, h2'⟩
  · left; exact h1.trans h2
  · left; exact h2 ▸ h1
  · left; exact h1 ▸ h2
  · right; exact ⟨h1.trans h2, h1'.trans h2'⟩

theorem zminEntry_min {z : ZSet} {e : String × Int} (h : zminEntry z = some e) :
    ∀ x ∈ z, entLE e x := by
  induction z generalizing e with
  | nil => simp
  | cons y ys ih =>
    intro x hx
    simp only [zminEntry] at h
    cases hz : zminEntry ys with
    | none =>
      rw [hz] at h
      have hys : ys = [] := zminEntry_eq_none hz
      simp at h
      subst hys
      simp at hx
      subst h; subst hx; exact entLE_refl _
    | some m =>
      rw [hz] at h
      rcases List.mem_cons.mp hx with hxy | hxs
      · by_cases hym : entLE y m
        · simp [hym] at h; subst h; subst hxy; exact entLE_refl _
        · simp [hym] at h; subst h; subst hxy; exact entLE_total _ _ hym
      · by_cases hym : entLE y m
        · simp [hym] at h; subst h
          exact entLE_trans hym (ih hz x hxs)
        · simp [hym] at h; subst h; exact ih hz x hxs

theorem length_zrem_lt {z : ZSet} {w : String} {t : Int}
    (h : zminEntry z = some (w, t)) : (zrem z w).length < z.length := by
  have hm : (w, t) ∈ z := zminEntry_mem h
  unfold zrem hdel
  exact List.length_filter_lt_length_iff_exists.mpr ⟨(w, t), hm, by simp⟩

/-! ## Lemmas about hash lookup after update -/

theorem hget_append {α : Type} (h₁ h₂ : List (String × α)) (k : String) :
    hget (h₁ ++ h₂) k =
      match hget h₁ k with
      | some v => some v
      | none => hget h₂ k := by
  induction h₁ with
  | nil => simp [hget]
  | cons x xs ih =>
    by_cases hx : x.1 = k
    · simp [hget, List.find?_cons, hx]
    · have hb : (x.1 == k) = false := by simp [hx]
      simp only [hget, List.cons_append, List.find?_cons, hb] at *
      exact ih

theorem hget_hdel {α : Type} (h : List (String × α)) (k k' : String) :
    hget (hdel h k) k' = if k' = k then none else hget h k' := by
  induction h with
  | nil => simp [hget, hdel]
  | cons x xs ih =>
    by_cases hxk : x.1 = k
    · have hb : (x.1 != k) = false := by simp [hxk]
      simp only [hdel, List.filter_cons, hb, if_false] at *
      by_cases hk : k' = k
      · simpa [hk] using ih
      · have hbk : (x.1 == k') = false := by simp [hxk, Ne.symm hk]
        simp only [hget, List.find?_cons, hbk] at *
        simpa [hk, hget] using ih
    · have hb : (x.1 != k) = true := by simp [hxk]
      simp only [hdel, List.filter_cons, hb, if_true] at *
      by_cases hxk' : x.1 = k'
      · have hne : ¬ k' = k := fun hh => hxk (hxk' ▸ hh ▸ rfl)
        have hbk : (x.1 == k') = true := by simp [hxk']
        simp [hget, List.find?_cons, hbk, hne]
      · have hbk : (x.1 == k') = false := by simp [hxk']
        simp only [hget, List.find?_cons, hbk] at *
        simpa [hget, hdel] using ih

theorem hget_hset {α : Type} (h : List (String × α)) (k k' : String) (v : α) :
    hget (hset h k v) k' = if k' = k then some v else hget h k' := by
  have hd : hset h k v = hdel h k ++ [(k, v)] := rfl
  rw [hd, hget_append, hget_hdel]
  by_cases hk : k' = k
  · simp [hk, hget, List.find?_cons]
  · have hbk : (k == k') = false := by simp [Ne.symm hk]
    simp only [hk, if_false]
    cases hget h k' with
    | some v' => simp
    | none => simp [hget, List.find?_cons, hbk]

theorem zscore_zadd (z : ZSet) (t : Int) (m m' : String) :
    zscore (zadd z t m) m' = if m' = m then some t else zscore z m' :=
  hget_hset z m m' t

theorem zscore_zrem (z : ZSet) (m m' : String) :
    zscore (zrem z m) m' = if m' = m then none else zscore z m' :=
  hget_hdel z m m'

theorem getZ_setZ (m : List (String × ZSet)) (k k' : String) (z : ZSet) :
    getZ (setZ m k z) k' = if k' = k then z else getZ m k' := by
  unfold getZ setZ
  rw [hget_hset]
  by_cases hk : k' = k <;> simp [hk]

/-- Keys of an association list. -/
def keysOf {α : Type} (h : List (String × α)) : List String :=
  h.map Prod.fst

theorem keysOf_hdel_sublist {α : Type} (h : List (String × α)) (k : String) :
    List.Sublist (keysOf (hdel h k)) (keysOf h) :=
  (List.filter_sublist h).map Prod.fst

theorem nodup_keysOf_hdel {α : Type} {h : List (String × α)} (hn : (keysOf h).Nodup)
    (k : String) : (keysOf (hdel h k)).Nodup :=
  hn.sublist (keysOf_hdel_sublist h k)

theorem hget_eq_of_mem_nodup {α : Type} {h : List (String × α)} {k : String} {v : α}
    (hn : (keysOf h).Nodup) (hm : (k, v) ∈ h) : hget h k = some v := by
  induction h with
  | nil => simp at hm
  | cons x xs ih =>
    have hn0 : (x.1 :: keysOf xs).Nodup := hn
    have hn' : (keysOf xs).Nodup := (List.nodup_cons.mp hn0).2
    rcases List.mem_cons.mp hm with hx | hxs
    · subst hx; simp [hget, List.find?_cons]
    · have hk : x.1 ≠ k := by
        intro hh
        have hmem : k ∈ keysOf xs := List.mem_map.mpr ⟨(k, v), hxs, rfl⟩
        exact (List.nodup_cons.mp hn0).1 (hh ▸ hmem)
      have hbk : (x.1 == k) = false := by simp [hk]
      simp only [hget, List.find?_cons, hbk]
      exact ih hn' hxs

theorem mem_value_unique {α : Type} {h : List (String × α)} {k : String} {a b : α}
    (hn : (keysOf h).Nodup) (ha : (k, a) ∈ h) (hb : (k, b) ∈ h) : a = b := by
  have h1 := hget_eq_of_mem_nodup hn ha
  have h2 := hget_eq_of_mem_nodup hn hb
  rw [h1] at h2
  exact Option.some.inj h2

/-! ## The salvage sub-routine (shared, manually copied, across the scripts)

Drains `wz:<target>` one worker at a time (always the lowest-scored entry,
via ZRANGE 0 0 WITHSCORES), moving recoverable workers with intact records to
`rz` with their original creation-time score and nulled `brokerId`, deleting
the rest from `wh`, and counting corrupt or missing records as broken.  The
copy in salvageWorkers.lua additionally treats every worker as
non-recoverable when the script runs in mode 2; `removeAll` models that test
(`mode ~= 2`), and the copy inlined in addBroker.lua corresponds to
`removeAll = false`.  Each iteration ZREMs the processed member, so the loop
terminates when the set is empty. -/

def salvageDrain (removeAll : Bool) (gh : GH) (wh : List (String × WhVal))
    (wzT rz : ZSet) : GH × List (String × WhVal) × ZSet :=
  match hmin : zminEntry wzT with
  | none => (gh, wh, rz)
  | some (w, t) =>
    match hget wh w with
    | some (WhVal.ok info) =>
      if info.attributes.recoverable && !removeAll then
        salvageDrain removeAll
          { gh with workersSalvaged := gh.workersSalvaged + 1 }
          (hset wh w (WhVal.ok { info with brokerId := none }))
          (zrem wzT w) (zadd rz t w)
      else
        salvageDrain removeAll
          { gh with workersRemoved := gh.workersRemoved + 1 }
          (hdel wh w) (zrem wzT w) rz
    | some WhVal.corrupt =>
      salvageDrain removeAll
        { gh with workersBroken := gh.workersBroken + 1 } wh (zrem wzT w) rz
    | none =>
      salvageDrain removeAll
        { gh with workersBroken := gh.workersBroken + 1 } wh (zrem wzT w) rz
termination_by wzT.length
decreasing_by
  all_goals exact length_zrem_lt hmin

theorem salvageDrain_eq_none (removeAll : Bool) (gh : GH)
    (wh : List (String × WhVal)) (wzT rz : ZSet) (h : zminEntry wzT = none) :
    salvageDrain removeAll gh wh wzT rz = (gh, wh, rz) := by
  unfold salvageDrain
  split
  · rfl
  · rename_i w t heq
    rw [h] at heq
    exact absurd heq (by simp)

theorem salvageDrain_eq_step (removeAll : Bool) (gh : GH)
    (wh : List (String × WhVal)) (wzT rz : ZSet) (w : String) (t : Int)
    (h : zminEntry wzT = some (w, t)) :
    salvageDrain removeAll gh wh wzT rz =
      (match hget wh w with
       | some (WhVal.ok info) =>
         if info.attributes.recoverable && !removeAll then
           salvageDrain removeAll
             { gh with workersSalvaged := gh.workersSalvaged + 1 }
             (hset wh w (WhVal.ok { info with brokerId := none }))
             (zrem wzT w) (zadd rz t w)
         else
           salvageDrain removeAll
             { gh with workersRemoved := gh.workersRemoved + 1 }
             (hdel wh w) (zrem wzT w) rz
       | some WhVal.corrupt =>
         salvageDrain removeAll
           { gh with workersBroken := gh.workersBroken + 1 } wh (zrem wzT w) rz
       | none =>
         salvageDrain removeAll
           { gh with workersBroken := gh.workersBroken + 1 } wh (zrem wzT w) rz) := by
  conv_lhs => unfold salvageDrain
  split
  · rename_i heq
    rw [h] at heq
    exact absurd heq (by simp)
  · rename_i w' t' heq
    rw [h] at heq
    have hp := Option.some.inj heq
    obtain ⟨h1, h2⟩ := Prod.mk.inj hp
    subst h1
    subst h2
    rfl

theorem keysOf_zrem_not_mem (z : ZSet) (w : String) : w ∉ keysOf (zrem z w) := by
  intro hm
  rcases List.mem_map.mp hm with ⟨e, he, hfst⟩
  have := List.of_mem_filter he
  rw [hfst] at this
  simp at this

theorem mem_keysOf_zrem (z : ZSet) (m a : String) (h : a ∈ keysOf (zrem z m)) :
    a ∈ keysOf z := by
  rcases List.mem_map.mp h with ⟨e, he, hfst⟩
  exact List.mem_map.mpr ⟨e, List.mem_of_mem_filter he, hfst⟩

theorem mem_zrem_of_mem_ne {z : ZSet} {w w0 : String} {t : Int}
    (hm : (w, t) ∈ z) (hne : w ≠ w0) : (w, t) ∈ zrem z w0 :=
  List.mem_filter.mpr ⟨hm, by simp [hne]⟩

theorem nodup_keysOf_zrem {z : ZSet} (hn : (keysOf z).Nodup) (m : String) :
    (keysOf (zrem z m)).Nodup :=
  nodup_keysOf_hdel hn m

/-- Workers whose key is not in the drained set keep their `wh` record and
`rz` score across the salvage sub-routine. -/
theorem salvageDrain_untouched (removeAll : Bool) (gh : GH)
    (wh : List (String × WhVal)) (wzT rz : ZSet) :
    ∀ w, w ∉ keysOf wzT →
      hget (salvageDrain removeAll gh wh wzT rz).2.1 w = hget wh w ∧
        zscore (salvageDrain removeAll gh wh wzT rz).2.2 w = zscore rz w := by
  induction gh, wh, wzT, rz using salvageDrain.induct removeAll with
  | case1 gh wh wzT rz hmin =>
    intro w hw
    rw [salvageDrain_eq_none removeAll gh wh wzT rz hmin]
    exact ⟨rfl, rfl⟩
  | case2 gh wh wzT rz w0 t0 hmin info hwh hrec ih =>
    intro w hw
    have hw0 : w ≠ w0 := by
      intro hh
      exact hw (hh ▸ List.mem_map.mpr ⟨(w0, t0), zminEntry_mem hmin, rfl⟩)
    have hw' : w ∉ keysOf (zrem wzT w0) := fun hm => hw (mem_keysOf_zrem _ _ _ hm)
    rw [salvageDrain_eq_step removeAll gh wh wzT rz w0 t0 hmin]
    simp only [hwh]
    rw [if_pos hrec]
    rcases ih w hw' with ⟨ih1, ih2⟩
    refine ⟨?_, ?_⟩
    · rw [ih1, hget_hset, if_neg hw0]
    · rw [ih2, zscore_zadd, if_neg hw0]
  | case3 gh wh wzT rz w0 t0 hmin info hwh hrec ih =>
    intro w hw
    have hw0 : w ≠ w0 := by
      intro hh
      exact hw (hh ▸ List.mem_map.mpr ⟨(w0, t0), zminEntry_mem hmin, rfl⟩)
    have hw' : w ∉ keysOf (zrem wzT w0) := fun hm => hw (mem_keysOf_zrem _ _ _ hm)
    rw [salvageDrain_eq_step removeAll gh wh wzT rz w0 t0 hmin]
    simp only [hwh]
    rw [if_neg hrec]
    rcases ih w hw' with ⟨ih1, ih2⟩
    refine ⟨?_, ih2⟩
    rw [ih1, hget_hdel, if_neg hw0]
  | case4 gh wh wzT rz w0 t0 hmin hwh ih =>
    intro w hw
    have hw' : w ∉ keysOf (zrem wzT w0) := fun hm => hw (mem_keysOf_zrem _ _ _ hm)
    rw [salvageDrain_eq_step removeAll gh wh wzT rz w0 t0 hmin]
    simp only [hwh]
    exact ih w hw'
  | case5 gh wh wzT rz w0 t0 hmin hwh ih =>
    intro w hw
    have hw' : w ∉ keysOf (zrem wzT w0) := fun hm => hw (mem_keysOf_zrem _ _ _ hm)
    rw [salvageDrain_eq_step removeAll gh wh wzT rz w0 t0 hmin]
    simp only [hwh]
    exact ih w hw'

/-- A recoverable, decodable worker sitting in the drained set (with unique
keys) ends with its `brokerId` nulled in `wh` and its original
creation-time score in `rz`. -/
theorem salvageDrain_recoverable (gh : GH) (wh : List (String × WhVal))
    (wzT rz : ZSet) :
    ∀ (w : String) (t : Int) (info : WorkerInfo), (keysOf wzT).Nodup →
      (w, t) ∈ wzT → hget wh w = some (WhVal.ok info) →
      info.attributes.recoverable = true →
      hget (salvageDrain false gh wh wzT rz).2.1 w =
          some (WhVal.ok { info with brokerId := none }) ∧
        zscore (salvageDrain false gh wh wzT rz).2.2 w = some t := by
  induction gh, wh, wzT, rz using salvageDrain.induct false with
  | case1 gh wh wzT rz hmin =>
    intro w t info hnd hmem hwh hrec
    rw [zminEntry_eq_none hmin] at hmem
    simp at hmem
  | case2 gh wh wzT rz w0 t0 hmin info0 hwh0 hrec0 ih =>
    intro w t info hnd hmem hwh hrec
    by_cases hww : w = w0
    · subst hww
      have ht : t = t0 := mem_value_unique hnd hmem (zminEntry_mem hmin)
      subst ht
      rw [hwh] at hwh0
      have hinfo : info = info0 := WhVal.ok.inj (Option.some.inj hwh0)
      subst hinfo
      have hw' : w ∉ keysOf (zrem wzT w) := keysOf_zrem_not_mem _ _
      rw [salvageDrain_eq_step false gh wh wzT rz w t hmin]
      simp only [hwh]
      rw [if_pos hrec0]
      rcases salvageDrain_untouched false
        { gh with workersSalvaged := gh.workersSalvaged + 1 }
        (hset wh w (WhVal.ok { info with brokerId := none }))
        (zrem wzT w) (zadd rz t w) w hw' with ⟨h1, h2⟩
      refine ⟨?_, ?_⟩
      · rw [h1, hget_hset, if_pos rfl]
      · rw [h2, zscore_zadd, if_pos rfl]
    · have hmem' : (w, t) ∈ zrem wzT w0 := mem_zrem_of_mem_ne hmem hww
      have hnd' := nodup_keysOf_zrem hnd w0
      have hwh' : hget (hset wh w0 (WhVal.ok { info0 with brokerId := none })) w =
          some (WhVal.ok info) := by
        rw [hget_hset, if_neg hww]; exact hwh
      rw [salvageDrain_eq_step false gh wh wzT rz w0 t0 hmin]
      simp only [hwh0]
      rw [if_pos hrec0]
      exact ih w t info hnd' hmem' hwh' hrec
  | case3 gh wh wzT rz w0 t0 hmin info0 hwh0 hrec0 ih =>
    intro w t info hnd hmem hwh hrec
    by_cases hww : w = w0
    · subst hww
      rw [hwh] at hwh0
      have hinfo : info = info0 := WhVal.ok.inj (Option.some.inj hwh0)
      subst hinfo
      rw [Bool.not_eq_true, Bool.and_eq_false_iff] at hrec0
      rcases hrec0 with h | h
      · rw [hrec] at h; exact Bool.noConfusion h
      · simp at h
    · have hmem' : (w, t) ∈ zrem wzT w0 := mem_zrem_of_mem_ne hmem hww
      have hnd' := nodup_keysOf_zrem hnd w0
      have hwh' : hget (hdel wh w0) w = some (WhVal.ok info) := by
        rw [hget_hdel, if_neg hww]; exact hwh
      rw [salvageDrain_eq_step false gh wh wzT rz w0 t0 hmin]
      simp only [hwh0]
      rw [if_neg hrec0]
      exact ih w t info hnd' hmem' hwh' hrec
  | case4 gh wh wzT rz w0 t0 hmin hwh0 ih =>
    intro w t info hnd hmem hwh hrec
    by_cases hww : w = w0
    · subst hww; rw [hwh] at hwh0; exact absurd hwh0 (by simp)
    · have hmem' : (w, t) ∈ zrem wzT w0 := mem_zrem_of_mem_ne hmem hww
      have hnd' := nodup_keysOf_zrem hnd w0
      rw [salvageDrain_eq_step false gh wh wzT rz w0 t0 hmin]
      simp only [hwh0]
      exact ih w t info hnd' hmem' hwh hrec
  | case5 gh wh wzT rz w0 t0 hmin hwh0 ih =>
    intro w t info hnd hmem hwh hrec
    by_cases hww : w = w0
    · subst hww; rw [hwh] at hwh0; exact absurd hwh0 (by simp)
    · have hmem' : (w, t) ∈ zrem wzT w0 := mem_zrem_of_mem_ne hmem hww
      have hnd' := nodup_keysOf_zrem hnd w0
      rw [salvageDrain_eq_step false gh wh wzT rz w0 t0 hmin]
      simp only [hwh0]
      exact ih w t info hnd' hmem' hwh hrec

/-- The drain only ever bumps the three worker counters. -/
theorem salvageDrain_gh_fields (removeAll : Bool) (gh : GH)
    (wh : List (String × WhVal)) (wzT rz : ZSet) :
    (salvageDrain removeAll gh wh wzT rz).1.brokersAdded = gh.brokersAdded ∧
      (salvageDrain removeAll gh wh wzT rz).1.chPfx = gh.chPfx ∧
      (salvageDrain removeAll gh wh wzT rz).1.brokersBroken = gh.brokersBroken := by
  induction gh, wh, wzT, rz using salvageDrain.induct removeAll with
  | case1 gh wh wzT rz hmin =>
    rw [salvageDrain_eq_none removeAll gh wh wzT rz hmin]
    exact ⟨rfl, rfl, rfl⟩
  | case2 gh wh wzT rz w0 t0 hmin info hwh hrec ih =>
    rw [salvageDrain_eq_step removeAll gh wh wzT rz w0 t0 hmin]
    simp only [hwh]
    rw [if_pos hrec]
    exact ih
  | case3 gh wh wzT rz w0 t0 hmin info hwh hrec ih =>
    rw [salvageDrain_eq_step removeAll gh wh wzT rz w0 t0 hmin]
    simp only [hwh]
    rw [if_neg hrec]
    exact ih
  | case4 gh wh wzT rz w0 t0 hmin hwh ih =>
    rw [salvageDrain_eq_step removeAll gh wh wzT rz w0 t0 hmin]
    simp only [hwh]
    exact ih
  | case5 gh wh wzT rz w0 t0 hmin hwh ih =>
    rw [salvageDrain_eq_step removeAll gh wh wzT rz w0 t0 hmin]
    simp only [hwh]
    exact ih

/-! ## addBroker.lua (the join script, spec section 4.3.1) -/

/-- addBroker.lua: join a broker.  Stores `chPrefix` in `gh`; if `bh`
already holds a decodable record for this broker id, salvages the stale
`wz:<brokerId>` set; if the record is undecodable, counts it as broken.
Then deletes `wz:<brokerId>`, writes the fresh broker record, adds the
broker to `cz`/`bz`, increments `brokersAdded` and returns `[0]`. -/
def addBroker (s : Registry) (brokerId chPfxArg : String) (load : Int)
    (cluster addr : String) (hashKey : Int) : Registry × List Int :=
  let s1 := { s with gh := { s.gh with chPfx := some chPfxArg } }
  let s2 :=
    match hget s1.bh brokerId with
    | some (BhVal.ok _) =>
      let r := salvageDrain false s1.gh s1.wh (getZ s1.wz brokerId) s1.rz
      { s1 with gh := r.1, wh := r.2.1, rz := r.2.2,
                wz := setZ s1.wz brokerId [] }
    | some BhVal.corrupt =>
      { s1 with gh := { s1.gh with brokersBroken := s1.gh.brokersBroken + 1 } }
    | none => s1
  let s3 := { s2 with wz := setZ s2.wz brokerId [] }
  let s4 := { s3 with bh := hset s3.bh brokerId (BhVal.ok ⟨cluster, "active", some addr⟩) }
  let s5 := { s4 with cz := setZ s4.cz cluster (zadd (getZ s4.cz cluster) load brokerId) }
  let s6 := { s5 with bz := setZ s5.bz cluster (zadd (getZ s5.bz cluster) hashKey brokerId) }
  let s7 := { s6 with gh := { s6.gh with brokersAdded := s6.gh.brokersAdded + 1 } }
  (s7, [0])

/-! ## salvageWorkers.lua (spec section 4.3.6) -/

/-- The part of salvageWorkers.lua after the mode-0 guard: run the salvage
sub-routine, delete the broker record, remove the broker from `cz`/`bz`
(mode 2 also deletes `wz:<target>`, already drained), and broadcast the
`recover` signal when `rz` is non-empty (which concatenates `chPrefix`,
erroring if it is unset). -/
def salvageMain (s : Registry) (cluster target : String) (mode : Nat) :
    Registry × Except String Unit :=
  let r := salvageDrain (mode == 2) s.gh s.wh (getZ s.wz target) s.rz
  let s1 := { s with gh := r.1, wh := r.2.1, rz := r.2.2,
                     wz := setZ s.wz target [] }
  let s2 := { s1 with bh := hdel s1.bh target }
  let s3 := { s2 with cz := setZ s2.cz cluster (zrem (getZ s2.cz cluster) target) }
  let s4 := { s3 with bz := setZ s3.bz cluster (zrem (getZ s3.bz cluster) target) }
  let s5 := if mode == 2 then { s4 with wz := setZ s4.wz target [] } else s4
  if zcard s5.rz > 0 then
    match s5.gh.chPfx with
    | none => (s5, Except.error "attempt to concatenate a nil value")
    | some cp => (publish s5 (cp ++ ":*") PubMsg.recoverSig, Except.ok ())
  else (s5, Except.ok ())

/-- salvageWorkers.lua: mode 0 (peer salvage) first checks the target's
broker record; a missing record only clears `cz`/`bz`, a corrupt one is
deleted along with the `cz`/`bz` entries, and a decodable record whose
status is not `invalid` makes the whole script a no-op.  Modes 1 and 2 (and
mode 0 on an `invalid` record) run the main salvage path. -/
def salvageWorkers (s : Registry) (cluster target : String) (mode : Nat) :
    Registry × Except String Unit :=
  if mode == 0 then
    match hget s.bh target with
    | none =>
      let s1 := { s with cz := setZ s.cz cluster (zrem (getZ s.cz cluster) target) }
      let s2 := { s1 with bz := setZ s1.bz cluster (zrem (getZ s1.bz cluster) target) }
      (s2, Except.ok ())
    | some BhVal.corrupt =>
      let s1 := { s with bh := hdel s.bh target }
      let s2 := { s1 with cz := setZ s1.cz cluster (zrem (getZ s1.cz cluster) target) }
      let s3 := { s2 with bz := setZ s2.bz cluster (zrem (getZ s2.bz cluster) target) }
      (s3, Except.ok ())
    | some (BhVal.ok brInfo) =>
      if brInfo.st != "invalid" then (s, Except.ok ())
      else salvageMain s cluster target mode
  else salvageMain s cluster target mode

/-! ## fetchWorkersToRecover.lua (spec section 4.3.7) -/

/-- One iteration's emission test: the record is appended (with its id
filled in) exactly when it exists, decodes, is recoverable, and is within
TTL (`ttl = 0` meaning unlimited). -/
def fetchEmit (wh : List (String × WhVal)) (now ttl : Int) (w : String)
    (t : Int) (acc : List (String × WorkerInfo)) : List (String × WorkerInfo) :=
  match hget wh w with
  | some (WhVal.ok info) =>
    if info.attributes.recoverable then
      if ttl == 0 || now - t < ttl then acc ++ [(w, info)] else acc
    else acc
  | some WhVal.corrupt => acc
  | none => acc

/-- The drain loop of fetchWorkersToRecover.lua: pop the lowest-scored entry
of `rz`, run the emission test, ZREM the entry from `rz` regardless, and
stop once the result list has reached `maxFetch` entries (checked after the
removal) or `rz` is empty. -/
def fetchLoop (wh : List (String × WhVal)) (now ttl : Int) (maxFetch : Nat)
    (rz : ZSet) (acc : List (String × WorkerInfo)) :
    List (String × WorkerInfo) × ZSet :=
  match hmin : zminEntry rz with
  | none => (acc, rz)
  | some (w, t) =>
    let acc' := fetchEmit wh now ttl w t acc
    let rz' := zrem rz w
    if maxFetch ≤ acc'.length then (acc', rz')
    else fetchLoop wh now ttl maxFetch rz' acc'
termination_by rz.length
decreasing_by
  all_goals exact length_zrem_lt hmin

theorem fetchLoop_eq_none (wh : List (String × WhVal)) (now ttl : Int)
    (maxFetch : Nat) (rz : ZSet) (acc : List (String × WorkerInfo))
    (h : zminEntry rz = none) :
    fetchLoop wh now ttl maxFetch rz acc = (acc, rz) := by
  unfold fetchLoop
  split
  · rfl
  · rename_i w t heq
    rw [h] at heq
    exact absurd heq (by simp)

theorem fetchLoop_eq_step (wh : List (String × WhVal)) (now ttl : Int)
    (maxFetch : Nat) (rz : ZSet) (acc : List (String × WorkerInfo))
    (w : String) (t : Int) (h : zminEntry rz = some (w, t)) :
    fetchLoop wh now ttl maxFetch rz acc =
      (if maxFetch ≤ (fetchEmit wh now ttl w t acc).length then
        (fetchEmit wh now ttl w t acc, zrem rz w)
      else fetchLoop wh now ttl maxFetch (zrem rz w) (fetchEmit wh now ttl w t acc)) := by
  conv_lhs => unfold fetchLoop
  split
  · rename_i heq
    rw [h] at heq
    exact absurd heq (by simp)
  · rename_i w' t' heq
    rw [h] at heq
    have hp := Option.some.inj heq
    obtain ⟨h1, h2⟩ := Prod.mk.inj hp
    subst h1
    subst h2
    rfl

/-- The emission condition of fetchWorkersToRecover.lua for a worker at
creation time `t`. -/
def emitOk (wh : List (String × WhVal)) (now ttl : Int) (w : String)
    (t : Int) : Prop :=
  ∃ info, hget wh w = some (WhVal.ok info) ∧
    info.attributes.recoverable = true ∧
    (ttl == 0 || decide (now - t < ttl)) = true

theorem fetchEmit_spec (wh : List (String × WhVal)) (now ttl : Int)
    (w : String) (t : Int) (acc : List (String × WorkerInfo)) :
    (¬ emitOk wh now ttl w t ∧ fetchEmit wh now ttl w t acc = acc) ∨
      (∃ info, hget wh w = some (WhVal.ok info) ∧
        info.attributes.recoverable = true ∧
        (ttl == 0 || decide (now - t < ttl)) = true ∧
        fetchEmit wh now ttl w t acc = acc ++ [(w, info)]) := by
  unfold fetchEmit emitOk
  cases hw : hget wh w with
  | none =>
    left
    refine ⟨?_, rfl⟩
    rintro ⟨info, hinfo, -, -⟩
    exact Option.noConfusion hinfo
  | some v =>
    cases v with
    | corrupt =>
      left
      refine ⟨?_, rfl⟩
      rintro ⟨info, hinfo, -, -⟩
      exact WhVal.noConfusion (Option.some.inj hinfo)
    | ok info =>
      by_cases hr : info.attributes.recoverable = true
      · by_cases ht : (ttl == 0 || decide (now - t < ttl)) = true
        · right
          exact ⟨info, rfl, hr, ht, by simp [hr, ht]⟩
        · left
          refine ⟨?_, by simp [hr, ht]⟩
          rintro ⟨info', hinfo', -, ht'⟩
          have : info = info' := WhVal.ok.inj (Option.some.inj hinfo')
          subst this
          exact ht ht'
      · left
        refine ⟨?_, by simp [hr]⟩
        rintro ⟨info', hinfo', hr', -⟩
        have : info = info' := WhVal.ok.inj (Option.some.inj hinfo')
        subst this
        exact hr hr'

theorem mem_fetchEmit_of_mem (wh : List (String × WhVal)) (now ttl : Int)
    (w : String) (t : Int) (acc : List (String × WorkerInfo))
    (wr : String × WorkerInfo) (hm : wr ∈ acc) :
    wr ∈ fetchEmit wh now ttl w t acc := by
  rcases fetchEmit_spec wh now ttl w t acc with ⟨-, he⟩ | ⟨info, -, -, -, he⟩
  · rw [he]; exact hm
  · rw [he]; exact List.mem_append_left _ hm

theorem length_fetchEmit_le (wh : List (String × WhVal)) (now ttl : Int)
    (w : String) (t : Int) (acc : List (String × WorkerInfo)) :
    (fetchEmit wh now ttl w t acc).length ≤ acc.length + 1 := by
  rcases fetchEmit_spec wh now ttl w t acc with ⟨-, he⟩ | ⟨info, -, -, -, he⟩
  · rw [he]; omega
  · rw [he]; simp

theorem zscore_some_mem {z : ZSet} {w : String} {t : Int}
    (h : zscore z w = some t) : (w, t) ∈ z := by
  unfold zscore hget at h
  cases hf : z.find? (fun p => p.1 == w) with
  | none => rw [hf] at h; exact Option.noConfusion h
  | some e =>
    rw [hf] at h
    have he := List.mem_of_find?_eq_some hf
    have hk : e.1 = w := by
      have := List.find?_some hf
      exact beq_iff_eq.mp (by simpa using this)
    have ht : e.2 = t := Option.some.inj h
    have : e = (w, t) := Prod.ext hk ht
    exact this ▸ he

theorem fetchLoop_acc_mono (wh : List (String × WhVal)) (now ttl : Int)
    (maxFetch : Nat) (rz : ZSet) (acc : List (String × WorkerInfo)) :
    ∀ wr ∈ acc, wr ∈ (fetchLoop wh now ttl maxFetch rz acc).1 := by
  induction rz, acc using fetchLoop.induct wh now ttl maxFetch with
  | case1 rz acc hmin =>
    intro wr hm
    rw [fetchLoop_eq_none wh now ttl maxFetch rz acc hmin]
    exact hm
  | case2 rz acc w t hmin acc2 hstop =>
    intro wr hm
    rw [fetchLoop_eq_step wh now ttl maxFetch rz acc w t hmin, if_pos hstop]
    exact mem_fetchEmit_of_mem wh now ttl w t acc wr hm
  | case3 rz acc w t hmin acc2 rz2 hcont ih =>
    intro wr hm
    rw [fetchLoop_eq_step wh now ttl maxFetch rz acc w t hmin, if_neg hcont]
    exact ih wr (mem_fetchEmit_of_mem wh now ttl w t acc wr hm)

theorem fetchLoop_count (wh : List (String × WhVal)) (now ttl : Int)
    (maxFetch : Nat) (rz : ZSet) (acc : List (String × WorkerInfo)) :
    acc.length < maxFetch →
      (fetchLoop wh now ttl maxFetch rz acc).1.length ≤ maxFetch := by
  induction rz, acc using fetchLoop.induct wh now ttl maxFetch with
  | case1 rz acc hmin =>
    intro hlt
    rw [fetchLoop_eq_none wh now ttl maxFetch rz acc hmin]
    exact Nat.le_of_lt hlt
  | case2 rz acc w t hmin acc2 hstop =>
    intro hlt
    rw [fetchLoop_eq_step wh now ttl maxFetch rz acc w t hmin, if_pos hstop]
    have hb := length_fetchEmit_le wh now ttl w t acc
    have hstop2 : maxFetch ≤ (fetchEmit wh now ttl w t acc).length := hstop
    show (fetchEmit wh now ttl w t acc).length ≤ maxFetch
    omega
  | case3 rz acc w t hmin acc2 rz2 hcont ih =>
    intro hlt
    rw [fetchLoop_eq_step wh now ttl maxFetch rz acc w t hmin, if_neg hcont]
    exact ih (by omega)

theorem fetchLoop_rz_sub (wh : List (String × WhVal)) (now ttl : Int)
    (maxFetch : Nat) (rz : ZSet) (acc : List (String × WorkerInfo)) :
    ∀ w t', zscore (fetchLoop wh now ttl maxFetch rz acc).2 w = some t' →
      zscore rz w = some t' := by
  induction rz, acc using fetchLoop.induct wh now ttl maxFetch with
  | case1 rz acc hmin =>
    intro w t' h
    rwa [fetchLoop_eq_none wh now ttl maxFetch rz acc hmin] at h
  | case2 rz acc w0 t0 hmin acc2 hstop =>
    intro w t' h
    rw [fetchLoop_eq_step wh now ttl maxFetch rz acc w0 t0 hmin, if_pos hstop] at h
    simp only at h
    rw [zscore_zrem] at h
    by_cases hww : w = w0
    · rw [if_pos hww] at h; exact Option.noConfusion h
    · rwa [if_neg hww] at h
  | case3 rz acc w0 t0 hmin acc2 rz2 hcont ih =>
    intro w t' h
    rw [fetchLoop_eq_step wh now ttl maxFetch rz acc w0 t0 hmin, if_neg hcont] at h
    have h' := ih w t' h
    rw [zscore_zrem] at h'
    by_cases hww : w = w0
    · rw [if_pos hww] at h'; exact Option.noConfusion h'
    · rwa [if_neg hww] at h'

theorem fetchLoop_emitted (wh : List (String × WhVal)) (now ttl : Int)
    (maxFetch : Nat) (rz : ZSet) (acc : List (String × WorkerInfo)) :
    (keysOf rz).Nodup →
      ∀ wr ∈ (fetchLoop wh now ttl maxFetch rz acc).1, wr ∈ acc ∨
        ∃ t, zscore rz wr.1 = some t ∧
          hget wh wr.1 = some (WhVal.ok wr.2) ∧
          wr.2.attributes.recoverable = true ∧
          (ttl == 0 || decide (now - t < ttl)) = true := by
  induction rz, acc using fetchLoop.induct wh now ttl maxFetch with
  | case1 rz acc hmin =>
    intro hnd wr hm
    rw [fetchLoop_eq_none wh now ttl maxFetch rz acc hmin] at hm
    exact Or.inl hm
  | case2 rz acc w0 t0 hmin acc2 hstop =>
    intro hnd wr hm
    rw [fetchLoop_eq_step wh now ttl maxFetch rz acc w0 t0 hmin, if_pos hstop] at hm
    simp only at hm
    have hsc : zscore rz w0 = some t0 :=
      hget_eq_of_mem_nodup hnd (zminEntry_mem hmin)
    rcases fetchEmit_spec wh now ttl w0 t0 acc with ⟨-, he⟩ | ⟨info, hw, hr, htl, he⟩
    · rw [he] at hm; exact Or.inl hm
    · rw [he] at hm
      rcases List.mem_append.mp hm with hma | hmb
      · exact Or.inl hma
      · rw [List.mem_singleton] at hmb
        subst hmb
        exact Or.inr ⟨t0, hsc, hw, hr, htl⟩
  | case3 rz acc w0 t0 hmin acc2 rz2 hcont ih =>
    intro hnd wr hm
    rw [fetchLoop_eq_step wh now ttl maxFetch rz acc w0 t0 hmin, if_neg hcont] at hm
    have hnd' := nodup_keysOf_zrem hnd w0
    have hsc : zscore rz w0 = some t0 :=
      hget_eq_of_mem_nodup hnd (zminEntry_mem hmin)
    rcases ih hnd' wr hm with hma | ⟨t, hsc', hw, hr, htl⟩
    · have hma2 : wr ∈ fetchEmit wh now ttl w0 t0 acc := hma
      rcases fetchEmit_spec wh now ttl w0 t0 acc with ⟨-, he⟩ | ⟨info, hw, hr, htl, he⟩
      · rw [he] at hma2; exact Or.inl hma2
      · rw [he] at hma2
        rcases List.mem_append.mp hma2 with hma' | hmb
        · exact Or.inl hma'
        · rw [List.mem_singleton] at hmb
          subst hmb
          exact Or.inr ⟨t0, hsc, hw, hr, htl⟩
    · rw [zscore_zrem] at hsc'
      by_cases hww : wr.1 = w0
      · rw [if_pos hww] at hsc'; exact Option.noConfusion hsc'
      · rw [if_neg hww] at hsc'
        exact Or.inr ⟨t, hsc', hw, hr, htl⟩

theorem fetchLoop_processed_iff (wh : List (String × WhVal)) (now ttl : Int)
    (maxFetch : Nat) (rz : ZSet) (acc : List (String × WorkerInfo)) :
    (keysOf rz).Nodup →
      ∀ w t, zscore rz w = some t →
        zscore (fetchLoop wh now ttl maxFetch rz acc).2 w = none →
        ((∃ rec, (w, rec) ∈ (fetchLoop wh now ttl maxFetch rz acc).1) ↔
          ((∃ rec, (w, rec) ∈ acc) ∨ emitOk wh now ttl w t)) := by
  induction rz, acc using fetchLoop.induct wh now ttl maxFetch with
  | case1 rz acc hmin =>
    intro hnd w t hsc hrem
    rw [fetchLoop_eq_none wh now ttl maxFetch rz acc hmin] at hrem
    rw [hsc] at hrem
    exact Option.noConfusion hrem
  | case2 rz acc w0 t0 hmin acc2 hstop =>
    intro hnd w t hsc hrem
    rw [fetchLoop_eq_step wh now ttl maxFetch rz acc w0 t0 hmin, if_pos hstop] at hrem ⊢
    simp only at hrem ⊢
    rw [zscore_zrem] at hrem
    by_cases hww : w = w0
    · subst hww
      have hsc0 : zscore rz w = some t0 :=
        hget_eq_of_mem_nodup hnd (zminEntry_mem hmin)
      have ht0 : t = t0 := Option.some.inj (hsc ▸ hsc0)
      subst ht0
      rcases fetchEmit_spec wh now ttl w t acc with ⟨hno, he⟩ | ⟨info, hw, hr, htl, he⟩
      · rw [he]
        constructor
        · exact fun h => Or.inl h
        · rintro (h | h)
          · exact h
          · exact absurd h hno
      · rw [he]
        constructor
        · intro _; exact Or.inr ⟨info, hw, hr, htl⟩
        · rintro -
          exact ⟨info, List.mem_append_right _ (List.mem_singleton.mpr rfl)⟩
    · rw [if_neg hww] at hrem
      rw [hsc] at hrem
      exact Option.noConfusion hrem
  | case3 rz acc w0 t0 hmin acc2 rz2 hcont ih =>
    intro hnd w t hsc hrem
    rw [fetchLoop_eq_step wh now ttl maxFetch rz acc w0 t0 hmin, if_neg hcont] at hrem ⊢
    have hnd' := nodup_keysOf_zrem hnd w0
    by_cases hww : w = w0
    · subst hww
      have hsc0 : zscore rz w = some t0 :=
        hget_eq_of_mem_nodup hnd (zminEntry_mem hmin)
      have ht0 : t = t0 := Option.some.inj (hsc ▸ hsc0)
      subst ht0
      have hgone : zscore (zrem rz w) w = none := by
        rw [zscore_zrem, if_pos rfl]
      constructor
      · intro ⟨rec, hrec⟩
        rcases fetchLoop_emitted wh now ttl maxFetch (zrem rz w)
            (fetchEmit wh now ttl w t acc) hnd' (w, rec) hrec with hma | ⟨t', hsc', -, -, -⟩
        · rcases fetchEmit_spec wh now ttl w t acc with ⟨hno, he⟩ | ⟨info, hw, hr, htl, he⟩
          · rw [he] at hma; exact Or.inl ⟨rec, hma⟩
          · rw [he] at hma
            rcases List.mem_append.mp hma with hma' | hmb
            · exact Or.inl ⟨rec, hma'⟩
            · exact Or.inr ⟨info, hw, hr, htl⟩
        · rw [hgone] at hsc'; exact Option.noConfusion hsc'
      · rintro (⟨rec, hrec⟩ | hok)
        · exact ⟨rec, fetchLoop_acc_mono wh now ttl maxFetch (zrem rz w) _ (w, rec)
            (mem_fetchEmit_of_mem wh now ttl w t acc (w, rec) hrec)⟩
        · rcases hok with ⟨info, hw, hr, htl⟩
          have he : fetchEmit wh now ttl w t acc = acc ++ [(w, info)] := by
            rcases fetchEmit_spec wh now ttl w t acc with ⟨hno, -⟩ | ⟨info', hw', hr', htl', he'⟩
            · exact absurd ⟨info, hw, hr, htl⟩ hno
            · have : info = info' := WhVal.ok.inj (Option.some.inj (hw ▸ hw'))
              subst this
              exact he'
          exact ⟨info, fetchLoop_acc_mono wh now ttl maxFetch (zrem rz w) _ (w, info)
            (he ▸ List.mem_append_right _ (List.mem_singleton.mpr rfl))⟩
    · have hsc' : zscore (zrem rz w0) w = some t := by
        rw [zscore_zrem, if_neg hww]; exact hsc
      have hiff := ih hnd' w t hsc' hrem
      have hacc : (∃ rec, (w, rec) ∈ fetchEmit wh now ttl w0 t0 acc) ↔
          (∃ rec, (w, rec) ∈ acc) := by
        rcases fetchEmit_spec wh now ttl w0 t0 acc with ⟨-, he⟩ | ⟨info, -, -, -, he⟩
        · rw [he]
        · rw [he]
          constructor
          · rintro ⟨rec, hrec⟩
            rcases List.mem_append.mp hrec with h | h
            · exact ⟨rec, h⟩
            · rw [List.mem_singleton] at h
              exact absurd (congrArg Prod.fst h) hww
          · rintro ⟨rec, hrec⟩
            exact ⟨rec, List.mem_append_left _ hrec⟩
      exact hiff.trans (or_congr hacc Iff.rfl)

theorem fetchLoop_order (wh : List (String × WhVal)) (now ttl : Int)
    (maxFetch : Nat) (rz : ZSet) (acc : List (String × WorkerInfo)) :
    (keysOf rz).Nodup →
      ∀ w t w' t', zscore rz w = some t →
        zscore (fetchLoop wh now ttl maxFetch rz acc).2 w = none →
        zscore (fetchLoop wh now ttl maxFetch rz acc).2 w' = some t' →
        entLE (w, t) (w', t') := by
  induction rz, acc using fetchLoop.induct wh now ttl maxFetch with
  | case1 rz acc hmin =>
    intro hnd w t w' t' hsc hrem hkeep
    rw [fetchLoop_eq_none wh now ttl maxFetch rz acc hmin] at hrem
    rw [hsc] at hrem
    exact Option.noConfusion hrem
  | case2 rz acc w0 t0 hmin acc2 hstop =>
    intro hnd w t w' t' hsc hrem hkeep
    rw [fetchLoop_eq_step wh now ttl maxFetch rz acc w0 t0 hmin, if_pos hstop]
      at hrem hkeep
    simp only at hrem hkeep
    rw [zscore_zrem] at hrem hkeep
    by_cases hww : w = w0
    · subst hww
      have hsc0 : zscore rz w = some t0 :=
        hget_eq_of_mem_nodup hnd (zminEntry_mem hmin)
      have ht0 : t = t0 := Option.some.inj (hsc ▸ hsc0)
      subst ht0
      by_cases hw' : w' = w
      · rw [if_pos hw'] at hkeep; exact Option.noConfusion hkeep
      · rw [if_neg hw'] at hkeep
        exact zminEntry_min hmin (w', t') (zscore_some_mem hkeep)
    · rw [if_neg hww] at hrem
      rw [hsc] at hrem
      exact Option.noConfusion hrem
  | case3 rz acc w0 t0 hmin acc2 rz2 hcont ih =>
    intro hnd w t w' t' hsc hrem hkeep
    rw [fetchLoop_eq_step wh now ttl maxFetch rz acc w0 t0 hmin, if_neg hcont]
      at hrem hkeep
    have hnd' := nodup_keysOf_zrem hnd w0
    by_cases hww : w = w0
    · subst hww
      have hsc0 : zscore rz w = some t0 :=
        hget_eq_of_mem_nodup hnd (zminEntry_mem hmin)
      have ht0 : t = t0 := Option.some.inj (hsc ▸ hsc0)
      subst ht0
      have hkeep' := fetchLoop_rz_sub wh now ttl maxFetch (zrem rz w) _ w' t' hkeep
      rw [zscore_zrem] at hkeep'
      by_cases hw' : w' = w
      · rw [if_pos hw'] at hkeep'; exact Option.noConfusion hkeep'
      · rw [if_neg hw'] at hkeep'
        exact zminEntry_min hmin (w', t') (zscore_some_mem hkeep')
    · have hsc' : zscore (zrem rz w0) w = some t := by
        rw [zscore_zrem, if_neg hww]; exact hsc
      exact ih hnd' w t w' t' hsc' hrem hkeep

/-- fetchWorkersToRecover.lua: returns the emitted records and the remaining
cardinality of `rz`. -/
def fetchWorkersToRecover (s : Registry) (now ttl : Int) (maxFetch : Nat) :
    Registry × (List (String × WorkerInfo) × Nat) :=
  let p := fetchLoop s.wh now ttl maxFetch s.rz []
  ({ s with rz := p.2 }, (p.1, zcard p.2))

/-! ## destroyWorker.lua (spec section 4.3.8) -/

/-- destroyWorker.lua: in mode 1, a decodable, recoverable worker record
whose entry is still in `wz:<self>` is moved to `rz` with its creation-time
score and its `wh` record kept; otherwise the `wh` record is deleted.  The
worker is always removed from `wz:<self>`, and a `recover` signal is
broadcast when `rz` is non-empty. -/
def destroyWorker (s : Registry) (selfId workerId : String) (mode : Nat) :
    Registry × Except String Unit :=
  let keep :=
    if mode == 1 then
      match hget s.wh workerId with
      | some (WhVal.ok info) =>
        if info.attributes.recoverable then
          match zscore (getZ s.wz selfId) workerId with
          | some _ => true
          | none => false
        else false
      | some WhVal.corrupt => false
      | none => false
    else false
  let s1 :=
    if keep then
      match zscore (getZ s.wz selfId) workerId with
      | some t => { s with rz := zadd s.rz t workerId }
      | none => s
    else s
  let s2 := if keep then s1 else { s1 with wh := hdel s1.wh workerId }
  let s3 := { s2 with wz := setZ s2.wz selfId (zrem (getZ s2.wz selfId) workerId) }
  if zcard s3.rz > 0 then
    match s3.gh.chPfx with
    | none => (s3, Except.error "attempt to concatenate a nil value")
    | some cp => (publish s3 (cp ++ ":*") PubMsg.recoverSig, Except.ok ())
  else (s3, Except.ok ())

/-! ## getLeastLoadedBroker.lua (pickBroker, spec section 4.3.2)

`subs` is the pubsub oracle: the number of subscribers PUBLISH reports on a
channel.  Each iteration reads the lowest-scored member of `cz:<cluster>`;
an active record is liveness-probed (1 or more receivers returns the
broker), a dead one is invalidated, a salvage signal broadcast and the entry
removed from `cz` before retrying; corrupt records count as broken. -/

def pickLoop (subs : String → Nat) (s : Registry) (cluster : String)
    (chPfx : Option String) :
    Nat → Registry × Except String (Option (String × String × Option String))
  | 0 => (s, Except.ok none)
  | fuel + 1 =>
    match zminEntry (getZ s.cz cluster) with
    | none => (s, Except.ok none)
    | some (bid, _) =>
      match hget s.bh bid with
      | some (BhVal.ok brInfo) =>
        if brInfo.st == "active" then
          match chPfx with
          | none => (s, Except.error "attempt to concatenate a nil value")
          | some cp =>
            let ch := cp ++ ":" ++ bid
            let s1 := publish s ch PubMsg.probe
            if subs ch == 1 then (s1, Except.ok (some (bid, brInfo.cn, brInfo.addr)))
            else if subs ch > 1 then (s1, Except.ok (some (bid, brInfo.cn, brInfo.addr)))
            else
              let s2 := { s1 with bh := hset s1.bh bid (BhVal.ok { brInfo with st := "invalid" }) }
              let s3 := publish s2 (cp ++ ":*") (PubMsg.salvageSig brInfo.cn bid)
              let s4 := { s3 with cz := setZ s3.cz cluster (zrem (getZ s3.cz cluster) bid) }
              pickLoop subs s4 cluster chPfx fuel
        else
          let s1 := { s with cz := setZ s.cz cluster (zrem (getZ s.cz cluster) bid) }
          pickLoop subs s1 cluster chPfx fuel
      | some BhVal.corrupt =>
        let s1 := { s with gh := { s.gh with brokersBroken := s.gh.brokersBroken + 1 } }
        let s2 := { s1 with cz := setZ s1.cz cluster (zrem (getZ s1.cz cluster) bid) }
        pickLoop subs s2 cluster chPfx fuel
      | none =>
        let s1 := { s with cz := setZ s.cz cluster (zrem (getZ s.cz cluster) bid) }
        pickLoop subs s1 cluster chPfx fuel

/-- getLeastLoadedBroker.lua: the for-loop runs `maxRetries + 1` iterations
(default 100 retries); falling out of the loop without a break returns nil. -/
def getLeastLoadedBroker (subs : String → Nat) (s : Registry) (cluster : String)
    (maxRetries : Option Nat) :
    Registry × Except String (Option (String × String × Option String)) :=
  pickLoop subs s cluster s.gh.chPfx (maxRetries.getD 100 + 1)

/-! ## healthCheck.lua (spec section 4.3.5) -/

inductive HCRes where
  | ok0
  | salvaged1
  | err2 (msg : String)
deriving Repr, DecidableEq

/-- healthCheck.lua: find the next broker after `selfId` in the `bz` ring
(rank + 1 modulo ring size).  A missing, corrupt or address-less record for
that broker is cleaned out of `bh`/`cz`/`bz` with return code 2; an active
record is liveness-probed, and on zero subscribers invalidated, removed from
`cz`/`bz` and a salvage signal broadcast, returning code 1. -/
def healthCheck (subs : String → Nat) (s : Registry) (cluster selfId : String) :
    Registry × Except String HCRes :=
  let bzc := getZ s.bz cluster
  let nBrokers := zcard bzc
  if nBrokers == 0 then (s, Except.ok (HCRes.err2 "No broker is in the bz table"))
  else
    match zrank bzc selfId with
    | none => (s, Except.ok (HCRes.err2 "broker ID is not in the bz table"))
    | some nRank0 =>
      if nBrokers == 1 then (s, Except.ok HCRes.ok0)
      else
        let nRank := (nRank0 + 1) % nBrokers
        match zrangeAt bzc nRank with
        | none => (s, Except.ok (HCRes.err2 "Failed to get next broker's ID"))
        | some (brokerId, _) =>
          match hget s.bh brokerId with
          | none =>
            let s1 := { s with cz := setZ s.cz cluster (zrem (getZ s.cz cluster) brokerId) }
            let s2 := { s1 with bz := setZ s1.bz cluster (zrem (getZ s1.bz cluster) brokerId) }
            (s2, Except.ok (HCRes.err2 "Broker is not present in bh"))
          | some BhVal.corrupt =>
            let s1 := { s with bh := hdel s.bh brokerId }
            let s2 := { s1 with cz := setZ s1.cz cluster (zrem (getZ s1.cz cluster) brokerId) }
            let s3 := { s2 with bz := setZ s2.bz cluster (zrem (getZ s2.bz cluster) brokerId) }
            (s3, Except.ok (HCRes.err2 "Removing corrupted broker"))
          | some (BhVal.ok brInfo) =>
            if brInfo.addr = none then
              let s1 := { s with bh := hdel s.bh brokerId }
              let s2 := { s1 with cz := setZ s1.cz cluster (zrem (getZ s1.cz cluster) brokerId) }
              let s3 := { s2 with bz := setZ s2.bz cluster (zrem (getZ s2.bz cluster) brokerId) }
              (s3, Except.ok (HCRes.err2 "Removing old version of broker"))
            else if brInfo.st == "active" then
              match s.gh.chPfx with
              | none => (s, Except.error "attempt to concatenate a nil value")
              | some cp =>
                let ch := cp ++ ":" ++ brokerId
                let s1 := publish s ch PubMsg.probe
                if subs ch == 0 then
                  let s2 := { s1 with bh := hset s1.bh brokerId (BhVal.ok { brInfo with st := "invalid" }) }
                  let s3 := { s2 with cz := setZ s2.cz cluster (zrem (getZ s2.cz cluster) brokerId) }
                  let s4 := { s3 with bz := setZ s3.bz cluster (zrem (getZ s3.bz cluster) brokerId) }
                  let s5 := publish s4 (cp ++ ":*") (PubMsg.salvageSig brInfo.cn brokerId)
                  (s5, Except.ok HCRes.salvaged1)
                else (s1, Except.ok HCRes.ok0)
            else (s, Except.ok HCRes.ok0)

/-! ## findBroker.lua (spec section 4.3.4) -/

inductive FBRes where
  | notFound1
  | retry2 (brokerId : Option String)
  | found0 (brokerId cn st : String) (addr : Option String)
deriving Repr, DecidableEq

/-- findBroker.lua: locate the broker owning `workerId`.  Corrupt worker or
broker records (and records without an address) are deleted with return code
1; a record without `brokerId` returns code 2 (worker under recovery); an
active owning broker is liveness-probed and, when dead, the worker's
`brokerId` is cleared, the broker invalidated and a salvage signal
broadcast, returning `[2, brokerId]`. -/
def findBroker (subs : String → Nat) (s : Registry) (workerId : String) :
    Registry × Except String FBRes :=
  match hget s.wh workerId with
  | none => (s, Except.ok FBRes.notFound1)
  | some WhVal.corrupt =>
    ({ s with wh := hdel s.wh workerId }, Except.ok FBRes.notFound1)
  | some (WhVal.ok info) =>
    match info.brokerId with
    | none => (s, Except.ok (FBRes.retry2 none))
    | some b =>
      match hget s.bh b with
      | none => (s, Except.ok FBRes.notFound1)
      | some BhVal.corrupt =>
        ({ s with bh := hdel s.bh b }, Except.ok FBRes.notFound1)
      | some (BhVal.ok brInfo) =>
        if brInfo.addr = none then
          ({ s with bh := hdel s.bh b }, Except.ok FBRes.notFound1)
        else if brInfo.st == "active" then
          match s.gh.chPfx with
          | none => (s, Except.error "attempt to concatenate a nil value")
          | some cp =>
            let ch := cp ++ ":" ++ b
            let s1 := publish s ch PubMsg.probe
            if subs ch == 0 then
              let s2 := { s1 with wh := hset s1.wh workerId (WhVal.ok { info with brokerId := none }) }
              let s3 := { s2 with bh := hset s2.bh b (BhVal.ok { brInfo with st := "invalid" }) }
              let s4 := publish s3 (cp ++ ":*") (PubMsg.salvageSig brInfo.cn b)
              (s4, Except.ok (FBRes.retry2 (some b)))
            else (s1, Except.ok (FBRes.found0 b brInfo.cn brInfo.st brInfo.addr))
        else (s, Except.ok (FBRes.found0 b brInfo.cn brInfo.st brInfo.addr))

/-! ## findOrCreateWorker.lua (spec section 4.3.3) -/

inductive FoCRes where
  | retry1
  | notFound0
  | found0 (brokerId : Option String) (name workerId : String)
deriving Repr, DecidableEq

/-- Outcome of the repeat-until-true block of findOrCreateWorker.lua: an
early return, a script error, or a fall-through carrying the `notFound`
flag, the effective `createdAt`, and the decoded `info` (always set by the
script on the fall-through paths where it is later read). -/
inductive FoCBody where
  | ret (r : FoCRes)
  | err (e : String)
  | fall (notFound : Bool) (createdAt : Int) (info : Option WorkerInfo)

/-- The repeat-until-true block of findOrCreateWorker.lua, operating on the
state after the create-mode setup.  `create` is true when ARGV[1] (the
broker id) is non-empty. -/
def findOrCreateBody (subs : String → Nat) (s : Registry) (create : Bool)
    (brokerIdArg workerId : String) (now ttl : Int) : Registry × FoCBody :=
  match hget s.wh workerId with
  | none => (s, FoCBody.fall true now none)
  | some WhVal.corrupt =>
    ({ s with gh := { s.gh with workersBroken := s.gh.workersBroken + 1 } },
     FoCBody.fall true now none)
  | some (WhVal.ok info) =>
    match info.brokerId with
    | some b =>
      match hget s.bh b with
      | none => (s, FoCBody.fall true now (some info))
      | some (BhVal.ok brInfo) =>
        if brInfo.st == "active" then
          match s.gh.chPfx with
          | none => (s, FoCBody.err "attempt to concatenate a nil value")
          | some cp =>
            let ch := cp ++ ":" ++ b
            let s1 := publish s ch PubMsg.probe
            if subs ch > 0 then (s1, FoCBody.fall false now (some info))
            else
              let s2 := { s1 with bh := hset s1.bh b (BhVal.ok { brInfo with st := "invalid" }) }
              let s3 := publish s2 (cp ++ ":*") (PubMsg.salvageSig brInfo.cn b)
              (s3, FoCBody.ret FoCRes.retry1)
        else
          match s.gh.chPfx with
          | none => (s, FoCBody.err "attempt to concatenate a nil value")
          | some cp =>
            let s1 := publish s (cp ++ ":*") (PubMsg.salvageSig brInfo.cn b)
            (s1, FoCBody.ret FoCRes.retry1)
      | some BhVal.corrupt =>
        let s1 := { s with bh := hdel s.bh b }
        let s2 := { s1 with gh := { s1.gh with brokersBroken := s1.gh.brokersBroken + 1 } }
        (s2, FoCBody.fall true now (some info))
    | none =>
      if !create then (s, FoCBody.ret FoCRes.retry1)
      else
        match zscore s.rz workerId with
        | none => (s, FoCBody.fall true now (some info))
        | some t0 =>
          let s1 := { s with rz := zrem s.rz workerId }
          if ttl == 0 || now - t0 < ttl then
            let info' := { info with brokerId := some brokerIdArg }
            let s2 := { s1 with wh := hset s1.wh workerId (WhVal.ok info') }
            let s3 := { s2 with wz := setZ s2.wz brokerIdArg
                                  (zadd (getZ s2.wz brokerIdArg) t0 workerId) }
            let s4 := { s3 with gh := { s3.gh with workersRecovered := s3.gh.workersRecovered + 1 } }
            (s4, FoCBody.fall false t0 (some info'))
          else (s1, FoCBody.fall false t0 (some info))

/-- findOrCreateWorker.lua.  `brokerIdArg = ""` selects find-only mode, in
which the script leaves the local `workerName` nil; the unconditional
`HSETNX gh <workerName> 0` then aborts the script with a Lua error because
redis.call arguments must be strings or integers.  In create mode a missing
worker id is derived (class name for static workers, `name#<counter>`
otherwise), and the repeat block's fall-through either re-attaches a worker
found in `rz` or creates a fresh record. -/
def findOrCreateWorker (subs : String → Nat) (s : Registry)
    (brokerIdArg nameArg workerIdArg : String) (attrs : WorkerAttrs)
    (now ttl forRecovery : Int) : Registry × Except String FoCRes :=
  let create := brokerIdArg ≠ ""
  let setup : Registry × Option String × String :=
    if create then
      if workerIdArg == "" then
        if attrs.static then (s, some nameArg, nameArg)
        else
          let n := classCounterGet s.gh nameArg + 1
          ({ s with gh := classCounterSet s.gh nameArg n },
           some nameArg, nameArg ++ "#" ++ toString n)
      else (s, some nameArg, workerIdArg)
    else (s, none, workerIdArg)
  match setup with
  | (s0, workerName, workerId) =>
    match workerName with
    | none =>
      (s0, Except.error "Lua redis lib command arguments must be strings or integers")
    | some wn =>
      let s1 := { s0 with gh := classCounterSetNx s0.gh wn }
      match findOrCreateBody subs s1 create brokerIdArg workerId now ttl with
      | (s2, FoCBody.err e) => (s2, Except.error e)
      | (s2, FoCBody.ret r) => (s2, Except.ok r)
      | (s2, FoCBody.fall notFound createdAt infoOpt) =>
        if notFound then
          if !create then (s2, Except.ok FoCRes.notFound0)
          else
            let info : WorkerInfo := ⟨nameArg, some brokerIdArg, attrs⟩
            let s3 := { s2 with wh := hset s2.wh workerId (WhVal.ok info) }
            let s4 := { s3 with wz := setZ s3.wz brokerIdArg
                                  (zadd (getZ s3.wz brokerIdArg) createdAt workerId) }
            let s5 :=
              if forRecovery == 1 then
                { s4 with gh := { s4.gh with workersRecovered := s4.gh.workersRecovered + 1 } }
              else
                { s4 with gh := { s4.gh with workersCreated := s4.gh.workersCreated + 1 } }
            (s5, Except.ok (FoCRes.found0 (some brokerIdArg) nameArg workerId))
        else
          match infoOpt with
          | some info => (s2, Except.ok (FoCRes.found0 info.brokerId info.name workerId))
          | none => (s2, Except.ok (FoCRes.found0 none "" workerId))

/-! ## Invariant B (spec section 3)

For every worker key `w` present in `wh` whose record decodes: if
`brokerId` is set then `wz:<brokerId>` contains `w`, and if it is absent
then `w` is in `rz`.  Corrupt records are exempt ("or corrupt"). -/

def invB (s : Registry) : Bool :=
  s.wh.all fun p =>
    match hget s.wh p.1 with
    | some (WhVal.ok info) =>
      match info.brokerId with
      | some b => zmem (getZ s.wz b) p.1
      | none => zmem s.rz p.1
    | _ => true

/-- Proposition form of Invariant B, quantified over worker keys. -/
def InvBP (s : Registry) : Prop :=
  ∀ w info, hget s.wh w = some (WhVal.ok info) →
    (∀ b, info.brokerId = some b → zmem (getZ s.wz b) w = true) ∧
    (info.brokerId = none → zmem s.rz w = true)

theorem hget_exists_entry {α : Type} {h : List (String × α)} {k : String} {v : α}
    (hw : hget h k = some v) : ∃ e ∈ h, e.1 = k := by
  unfold hget at hw
  cases hf : h.find? (fun p => p.1 == k) with
  | none => rw [hf] at hw; exact Option.noConfusion hw
  | some e =>
    refine ⟨e, List.mem_of_find?_eq_some hf, ?_⟩
    have := List.find?_some hf
    exact beq_iff_eq.mp (by simpa using this)

theorem invB_iff (s : Registry) : invB s = true ↔ InvBP s := by
  constructor
  · intro h w info hw
    have hall := List.all_eq_true.mp h
    obtain ⟨e, he, hke⟩ := hget_exists_entry hw
    have hP := hall e he
    simp only [hke, hw] at hP
    refine ⟨?_, ?_⟩
    · intro b hb
      rw [hb] at hP
      exact hP
    · intro hnone
      rw [hnone] at hP
      exact hP
  · intro h
    apply List.all_eq_true.mpr
    intro p hp
    cases hw : hget s.wh p.1 with
    | none => simp only [hw]
    | some v =>
      cases v with
      | corrupt => simp only [hw]
      | ok info =>
        simp only [hw]
        cases hb : info.brokerId with
        | some b =>
          exact (h p.1 info hw).1 b hb
        | none =>
          exact (h p.1 info hw).2 hb

/-- The invariant decoupled for the drain: records pointing at the target
broker must sit in the drained set `wzT`, records pointing at any other
broker in that broker's (fixed) worker set, and orphaned records in `rz`. -/
def InvAux (W : String → ZSet) (tgt : String) (wh : List (String × WhVal))
    (wzT rz : ZSet) : Prop :=
  ∀ w info, hget wh w = some (WhVal.ok info) →
    (∀ b, info.brokerId = some b →
      (if b = tgt then zmem wzT w else zmem (W b) w) = true) ∧
    (info.brokerId = none → zmem rz w = true)

theorem zmem_zadd_self (z : ZSet) (t : Int) (m : String) :
    zmem (zadd z t m) m = true := by
  unfold zmem
  rw [zscore_zadd, if_pos rfl]
  rfl

theorem zmem_zadd_other {z : ZSet} {m m' : String} (t : Int) (hne : m' ≠ m)
    (h : zmem z m' = true) : zmem (zadd z t m) m' = true := by
  unfold zmem at *
  rw [zscore_zadd, if_neg hne]
  exact h

theorem zmem_zrem_other {z : ZSet} {m m' : String} (hne : m' ≠ m)
    (h : zmem z m' = true) : zmem (zrem z m) m' = true := by
  unfold zmem at *
  rw [zscore_zrem, if_neg hne]
  exact h

/-- The salvage sub-routine preserves the decoupled invariant, ending with
an empty drained set. -/
theorem salvageDrain_invAux (removeAll : Bool) (W : String → ZSet)
    (tgt : String) (gh : GH) (wh : List (String × WhVal)) (wzT rz : ZSet) :
    InvAux W tgt wh wzT rz →
      InvAux W tgt (salvageDrain removeAll gh wh wzT rz).2.1 []
        (salvageDrain removeAll gh wh wzT rz).2.2 := by
  induction gh, wh, wzT, rz using salvageDrain.induct removeAll with
  | case1 gh wh wzT rz hmin =>
    intro hinv
    rw [salvageDrain_eq_none removeAll gh wh wzT rz hmin]
    have hz : wzT = [] := zminEntry_eq_none hmin
    exact hz ▸ hinv
  | case2 gh wh wzT rz w0 t0 hmin info0 hwh0 hrec0 ih =>
    intro hinv
    rw [salvageDrain_eq_step removeAll gh wh wzT rz w0 t0 hmin]
    simp only [hwh0]
    rw [if_pos hrec0]
    apply ih
    intro w info hw
    by_cases hww : w = w0
    · subst hww
      rw [hget_hset, if_pos rfl] at hw
      have : WorkerInfo.mk info0.name none info0.attributes = info :=
        WhVal.ok.inj (Option.some.inj hw)
      subst this
      refine ⟨?_, ?_⟩
      · intro b hb
        exact Option.noConfusion hb
      · intro _
        exact zmem_zadd_self rz t0 w
    · rw [hget_hset, if_neg hww] at hw
      rcases hinv w info hw with ⟨h1, h2⟩
      refine ⟨?_, ?_⟩
      · intro b hb
        have := h1 b hb
        by_cases hbt : b = tgt
        · rw [if_pos hbt] at this ⊢
          exact zmem_zrem_other hww this
        · rwa [if_neg hbt] at this ⊢
      · intro hnone
        exact zmem_zadd_other t0 hww (h2 hnone)
  | case3 gh wh wzT rz w0 t0 hmin info0 hwh0 hrec0 ih =>
    intro hinv
    rw [salvageDrain_eq_step removeAll gh wh wzT rz w0 t0 hmin]
    simp only [hwh0]
    rw [if_neg hrec0]
    apply ih
    intro w info hw
    by_cases hww : w = w0
    · subst hww
      rw [hget_hdel, if_pos rfl] at hw
      exact Option.noConfusion hw
    · rw [hget_hdel, if_neg hww] at hw
      rcases hinv w info hw with ⟨h1, h2⟩
      refine ⟨?_, h2⟩
      intro b hb
      have := h1 b hb
      by_cases hbt : b = tgt
      · rw [if_pos hbt] at this ⊢
        exact zmem_zrem_other hww this
      · rwa [if_neg hbt] at this ⊢
  | case4 gh wh wzT rz w0 t0 hmin hwh0 ih =>
    intro hinv
    rw [salvageDrain_eq_step removeAll gh wh wzT rz w0 t0 hmin]
    simp only [hwh0]
    apply ih
    intro w info hw
    by_cases hww : w = w0
    · subst hww
      rw [hw] at hwh0
      exact absurd hwh0 (by simp)
    · rcases hinv w info hw with ⟨h1, h2⟩
      refine ⟨?_, h2⟩
      intro b hb
      have := h1 b hb
      by_cases hbt : b = tgt
      · rw [if_pos hbt] at this ⊢
        exact zmem_zrem_other hww this
      · rwa [if_neg hbt] at this ⊢
  | case5 gh wh wzT rz w0 t0 hmin hwh0 ih =>
    intro hinv
    rw [salvageDrain_eq_step removeAll gh wh wzT rz w0 t0 hmin]
    simp only [hwh0]
    apply ih
    intro w info hw
    by_cases hww : w = w0
    · subst hww
      rw [hw] at hwh0
      exact Option.noConfusion hwh0
    · rcases hinv w info hw with ⟨h1, h2⟩
      refine ⟨?_, h2⟩
      intro b hb
      have := h1 b hb
      by_cases hbt : b = tgt
      · rw [if_pos hbt] at this ⊢
        exact zmem_zrem_other hww this
      · rwa [if_neg hbt] at this ⊢

theorem invB_congr (s' s : Registry) (h1 : s'.wh = s.wh) (h2 : s'.wz = s.wz)
    (h3 : s'.rz = s.rz) : invB s' = invB s := by
  unfold invB
  rw [h1, h2, h3]

/-- getLeastLoadedBroker never touches `wh`, `wz` or `rz`. -/
theorem pickLoop_fields (subs : String → Nat) (cluster : String)
    (chPfx : Option String) :
    ∀ (fuel : Nat) (s : Registry),
      (pickLoop subs s cluster chPfx fuel).1.wh = s.wh ∧
        (pickLoop subs s cluster chPfx fuel).1.wz = s.wz ∧
        (pickLoop subs s cluster chPfx fuel).1.rz = s.rz := by
  intro fuel
  induction fuel with
  | zero => intro s; exact ⟨rfl, rfl, rfl⟩
  | succ n ih =>
    intro s
    simp only [pickLoop]
    repeat' split
    all_goals first
      | exact ⟨rfl, rfl, rfl⟩
      | exact ih _

/-- healthCheck never touches `wh`, `wz` or `rz`. -/
theorem healthCheck_fields (subs : String → Nat) (s : Registry)
    (cluster selfId : String) :
    (healthCheck subs s cluster selfId).1.wh = s.wh ∧
      (healthCheck subs s cluster selfId).1.wz = s.wz ∧
      (healthCheck subs s cluster selfId).1.rz = s.rz := by
  simp only [healthCheck]
  repeat' split
  all_goals exact ⟨rfl, rfl, rfl⟩

/-- The main salvage path of salvageWorkers.lua preserves Invariant B. -/
theorem salvageMain_invB (s : Registry) (cluster target : String) (mode : Nat)
    (h : invB s = true) : invB (salvageMain s cluster target mode).1 = true := by
  have hib := (invB_iff s).mp h
  have hinv0 : InvAux (fun b => getZ s.wz b) target s.wh (getZ s.wz target) s.rz := by
    intro w info hw
    rcases hib w info hw with ⟨h1, h2⟩
    refine ⟨?_, h2⟩
    intro b hb
    by_cases hbt : b = target
    · rw [if_pos hbt]
      exact hbt ▸ h1 b hb
    · rw [if_neg hbt]
      exact h1 b hb
  have hdrain := salvageDrain_invAux (mode == 2) (fun b => getZ s.wz b) target
    s.gh s.wh (getZ s.wz target) s.rz hinv0
  have h5 : ∀ (sx : Registry),
      sx.wh = (salvageDrain (mode == 2) s.gh s.wh (getZ s.wz target) s.rz).2.1 →
      sx.rz = (salvageDrain (mode == 2) s.gh s.wh (getZ s.wz target) s.rz).2.2 →
      (∀ b, getZ sx.wz b = if b = target then [] else getZ s.wz b) →
      invB sx = true := by
    intro sx hwh hrz hwz
    apply (invB_iff sx).mpr
    intro w info hw
    rw [hwh] at hw
    rcases hdrain w info hw with ⟨h1, h2⟩
    refine ⟨?_, ?_⟩
    · intro b hb
      have hc := h1 b hb
      rw [hwz b]
      by_cases hbt : b = target
      · rw [if_pos hbt] at hc ⊢
        exact hc
      · rw [if_neg hbt] at hc ⊢
        exact hc
    · intro hnone
      rw [hrz]
      exact h2 hnone
  have hwz1 : ∀ b, getZ (setZ s.wz target []) b =
      if b = target then [] else getZ s.wz b := by
    intro b
    rw [getZ_setZ]
  have hwz2 : ∀ b, getZ (setZ (setZ s.wz target []) target []) b =
      if b = target then [] else getZ s.wz b := by
    intro b
    rw [getZ_setZ]
    by_cases hbt : b = target
    · rw [if_pos hbt, if_pos hbt]
    · rw [if_neg hbt, if_neg hbt, hwz1 b, if_neg hbt]
  simp only [salvageMain]
  repeat' split
  all_goals first
    | exact h5 _ rfl rfl hwz1
    | exact h5 _ rfl rfl hwz2

/-- salvageWorkers.lua preserves Invariant B in every mode: the mode-0 guard
paths only touch `bh`/`cz`/`bz`, and the main path is covered by the drain
invariant. -/
theorem salvageWorkers_invB (s : Registry) (cluster target : String)
    (mode : Nat) (h : invB s = true) :
    invB (salvageWorkers s cluster target mode).1 = true := by
  simp only [salvageWorkers]
  repeat' split
  all_goals first
    | exact (invB_congr _ s rfl rfl rfl).trans h
    | exact salvageMain_invB s cluster target mode h

/-! ## common.js: generateHashKey

The source hashes the input with MD5 (an external library call, modelled
here as the abstract digest byte list the function receives), zeroes
`buf[0]`, masks `buf[1]` with 0x1f, and combines two big-endian 32-bit
reads: `buf.readUInt32BE(0) * 2^32 + buf.readUInt32BE(4)`. -/

def readUInt32BE (b0 b1 b2 b3 : Nat) : Nat :=
  ((b0 * 256 + b1) * 256 + b2) * 256 + b3

def generateHashKey (digest : List Nat) : Nat :=
  match digest with
  | _ :: b1 :: b2 :: b3 :: b4 :: b5 :: b6 :: b7 :: _ =>
    readUInt32BE 0 (b1 &&& 31) b2 b3 * 2 ^ 32 + readUInt32BE b4 b5 b6 b7
  | _ => 0

/-- The spec's wording: zero the top 11 bits of the first 8 digest bytes and
read them as one 64-bit big-endian integer. -/
def beReadBytes (bs : List Nat) : Nat :=
  bs.foldl (fun a b => a * 256 + b) 0

def hashKeySpecOf (digest : List Nat) : Nat :=
  beReadBytes (digest.take 8) % 2 ^ 53

/-! ## router.js: client-socket close handler

On the `close` event the router flushes the pending queue: with
`had_error` each queued item's promise is rejected with the connection's
last error; on a clean close each item is logged as an unexpected anomaly
and discarded.  Either way the queue ends empty. -/

inductive ItemFate where
  | rejected (err : String)
  | discardedWithWarning
deriving Repr, DecidableEq

def clientCloseFlush {α : Type} (hadError : Bool) (lastErr : String)
    (pending : List α) : List (α × ItemFate) × List α :=
  (pending.map fun it =>
    (it, if hadError then ItemFate.rejected lastErr else ItemFate.discardedWithWarning),
   [])

/-! ## broker.js: Broker.prototype.destroy (spec section 4.4.10) -/

inductive BrState where
  | inactive
  | activating
  | active
  | destroying
  | destroyed
deriving Repr, DecidableEq

inductive DestroyStep where
  | setState (st : BrState)
  | onDestroyWorker (workerId : String)
  | closeRouter
  | removeFromCzBz
  | unsubscribeChannels
  | runSalvage (mode : Nat)
  | cancelTimer
  | clearBrokerCache
deriving Repr, DecidableEq

/-- The teardown sequence Broker.prototype.destroy performs once past the
state checks: transition to destroying, call onDestroy(SYSTEM) on every
local worker (rejections ignored), close the router, remove self from
`cz`/`bz` while unsubscribing the pubsub channels, run salvageWorkers in
mode 2 (noRecover) or mode 1, cancel the periodic timer, reset the broker
address cache, and transition to destroyed. -/
def destroyTeardownSteps (workers : List String) (noRecover : Bool) : List DestroyStep :=
  [DestroyStep.setState BrState.destroying]
    ++ workers.map DestroyStep.onDestroyWorker
    ++ [DestroyStep.closeRouter, DestroyStep.removeFromCzBz,
        DestroyStep.unsubscribeChannels,
        DestroyStep.runSalvage (if noRecover then 2 else 1),
        DestroyStep.cancelTimer, DestroyStep.clearBrokerCache,
        DestroyStep.setState BrState.destroyed]

/-- Broker.prototype.destroy: INACTIVE resolves immediately (no teardown),
ACTIVATING / DESTROYING / DESTROYED reject with an invalid-state error, and
ACTIVE performs the full teardown, ending destroyed. -/
def brokerDestroy (st : BrState) (workers : List String) (noRecover : Bool) :
    Except String (List DestroyStep × BrState) :=
  match st with
  | BrState.inactive => Except.ok ([], BrState.inactive)
  | BrState.activating => Except.error "Cannot destroy while broker is starting"
  | BrState.destroying => Except.error "Already destroying"
  | BrState.destroyed => Except.error "Already destroyed"
  | BrState.active =>
    Except.ok (destroyTeardownSteps workers noRecover, BrState.destroyed)

/-! ## broker.js: Broker.prototype._onCreateWorker (the onCreateWorker RPC
handler, after its findOrCreateWorker call returns `res`)

`res[0]` must be 0 and `res[1]` an array of at least 3 elements, else the
handler throws.  It constructs and registers a local worker instance only
when `res[1][0]` names this broker and no instance with that worker id is
present; otherwise it returns the winning pair untouched. -/

def onCreateWorkerHandler (selfId : String) (workers : List String)
    (resCode : Int) (resArr : Option (List String)) :
    Except String (Bool × List String × String × String) :=
  if resCode ≠ 0 then Except.error "Unexpected result code"
  else
    match resArr with
    | none => Except.error "Internal error (invalid result value from lua)"
    | some arr =>
      if arr.length < 3 then
        Except.error "Internal error (invalid result value from lua)"
      else
        let brokerId := arr.getD 0 ""
        let workerId := arr.getD 2 ""
        if brokerId == selfId && !(workers.contains workerId) then
          Except.ok (true, workers ++ [workerId], brokerId, workerId)
        else
          Except.ok (false, workers, brokerId, workerId)

/-! ## Concrete registry states used by the claim theorems -/

def c1State : Registry :=
  { gh := { chPfx := some "test:ch", workersCreated := 1, workersRecovered := 0,
            workersSalvaged := 1, workersRemoved := 0, workersBroken := 0,
            brokersAdded := 0, brokersBroken := 0, classCounters := [("MyWorker", 1)] }
    wh := [("MyWorker#1", WhVal.ok ⟨"MyWorker", none, ⟨true, false⟩⟩)]
    bh := []
    cz := []
    bz := []
    wz := []
    rz := [("MyWorker#1", 5)]
    published := [] }

def c4State : Registry :=
  { gh := { chPfx := some "test:ch", workersCreated := 2, workersRecovered := 0,
            workersSalvaged := 0, workersRemoved := 0, workersBroken := 0,
            brokersAdded := 0, brokersBroken := 0, classCounters := [] }
    wh := []
    bh := []
    cz := []
    bz := []
    wz := []
    rz := [("a", 1), ("b", 2)]
    published := [] }

def c2State : Registry :=
  { gh := { chPfx := some "test:ch", workersCreated := 1, workersRecovered := 0,
            workersSalvaged := 0, workersRemoved := 0, workersBroken := 0,
            brokersAdded := 1, brokersBroken := 0, classCounters := [("MyWorker", 1)] }
    wh := [("MyWorker#1", WhVal.ok ⟨"MyWorker", some "br01", ⟨true, false⟩⟩)]
    bh := [("br01", BhVal.ok ⟨"pvp", "active", some "1.2.3.4:6690"⟩)]
    cz := [("pvp", [("br01", 10)])]
    bz := [("pvp", [("br01", 123)])]
    wz := [("br01", [("MyWorker#1", 777)])]
    rz := []
    published := [] }

def c5State : Registry :=
  { gh := { chPfx := some "test:ch", workersCreated := 0, workersRecovered := 0,
            workersSalvaged := 0, workersRemoved := 0, workersBroken := 0,
            brokersAdded := 2, brokersBroken := 0, classCounters := [] }
    wh := []
    bh := [("br02", BhVal.ok ⟨"pvp", "active", some "127.0.0.1:5678"⟩)]
    cz := [("pvp", [("br01", 10), ("br02", 20)])]
    bz := [("pvp", [("br01", 123), ("br02", 234)])]
    wz := []
    rz := []
    published := [] }

def c6State : Registry :=
  { gh := { chPfx := some "test:ch", workersCreated := 3, workersRecovered := 0,
            workersSalvaged := 0, workersRemoved := 0, workersBroken := 0,
            brokersAdded := 1, brokersBroken := 0, classCounters := [("MyWorker", 3)] }
    wh := [("MyWorker#1", WhVal.ok ⟨"MyWorker", some "br01", ⟨true, false⟩⟩)]
    bh := [("br01", BhVal.ok ⟨"pvp", "active", some "1.2.3.4:6690"⟩)]
    cz := [("pvp", [("br01", 10)])]
    bz := [("pvp", [("br01", 123)])]
    wz := [("br01", [("MyWorker#1", 1000)])]
    rz := []
    published := [] }

/-! ## Claim theorems -/

/-- Claim C6: for every registry state in which the target's broker record
exists, decodes, and has a status different from `invalid`, salvage in mode
0 is a no-op: the result is the unchanged registry (every hash, sorted set,
counter, and even the publish log) together with a normal return. -/
theorem salvageWorkers_mode0_noop (s : Registry) (cluster target : String)
    (brInfo : BrokerInfo) (hb : hget s.bh target = some (BhVal.ok brInfo))
    (hst : brInfo.st ≠ "invalid") :
    salvageWorkers s cluster target 0 = (s, Except.ok ()) := by
  unfold salvageWorkers
  simp [hb, hst]


/-- Witness for C6: evaluating the mode-0 guard at a concrete active broker
record leaves the concrete registry untouched. -/
theorem salvageWorkers_mode0_noop_witness :
    salvageWorkers c6State "pvp" "br01" 0 = (c6State, Except.ok ()) :=
  salvageWorkers_mode0_noop c6State "pvp" "br01"
    ⟨"pvp", "active", some "1.2.3.4:6690"⟩ (by decide) (by decide)

/-- Claim C7 (counterexample): destroying an `inactive` broker resolves
immediately with no teardown and no transition to `destroying`/`destroyed`,
although `inactive` is not among the three refused states; the claim's "in
every other state it transitions the broker to destroying ... and finally
transitions to destroyed" fails there. -/
theorem brokerDestroy_inactive_counterexample :
    brokerDestroy BrState.inactive [] false = Except.ok ([], BrState.inactive) ∧
      (([], BrState.inactive) :  List DestroyStep × BrState) ≠
        (destroyTeardownSteps [] false, BrState.destroyed) :=
  ⟨rfl, by decide⟩

/-- Claim C7 (amended): Broker.destroy rejects with an invalid-state error
exactly in the activating, destroying, and destroyed states; in the
inactive state it resolves immediately performing no teardown; in the
active state it transitions to destroying, runs the teardown sequence
(per-worker onDestroy, router close, cz/bz removal, unsubscribe, salvage in
mode 2 when noRecover else mode 1, timer cancel, address-cache clear) and
finally transitions to destroyed. -/
theorem brokerDestroy_state_machine (workers : List String) (noRecover : Bool) :
    brokerDestroy BrState.inactive workers noRecover =
        Except.ok ([], BrState.inactive) ∧
      brokerDestroy BrState.activating workers noRecover =
        Except.error "Cannot destroy while broker is starting" ∧
      brokerDestroy BrState.destroying workers noRecover =
        Except.error "Already destroying" ∧
      brokerDestroy BrState.destroyed workers noRecover =
        Except.error "Already destroyed" ∧
      brokerDestroy BrState.active workers noRecover =
        Except.ok ([DestroyStep.setState BrState.destroying]
            ++ workers.map DestroyStep.onDestroyWorker
            ++ [DestroyStep.closeRouter, DestroyStep.removeFromCzBz,
                DestroyStep.unsubscribeChannels,
                DestroyStep.runSalvage (if noRecover then 2 else 1),
                DestroyStep.cancelTimer, DestroyStep.clearBrokerCache,
                DestroyStep.setState BrState.destroyed],
          BrState.destroyed) :=
  ⟨rfl, rfl, rfl, rfl, rfl⟩

theorem map_fst_pair_const {α β : Type} (c : β) (l : List α) :
    (l.map fun it => (it, c)).map Prod.fst = l := by
  induction l with
  | nil => rfl
  | cons x xs ih => simpa using ih

/-- Claim C8: when a client connection closes after a socket error, every
item of the non-empty pending queue is rejected with the connection's last
error; when it closes cleanly, each pending item is discarded with a warning
and none is rejected; both ways the queue ends empty and the items flushed
are exactly the queued ones in order. -/
theorem router_close_flushes_pending {α : Type} (err : String)
    (pending : List α) (hne : pending ≠ []) :
    (∀ pr ∈ (clientCloseFlush true err pending).1,
        pr.2 = ItemFate.rejected err) ∧
      (clientCloseFlush true err pending).1.map Prod.fst = pending ∧
      (clientCloseFlush true err pending).2 = [] ∧
      (∀ pr ∈ (clientCloseFlush false err pending).1,
        pr.2 = ItemFate.discardedWithWarning ∧ ∀ e, pr.2 ≠ ItemFate.rejected e) ∧
      (clientCloseFlush false err pending).1.map Prod.fst = pending ∧
      (clientCloseFlush false err pending).2 = [] := by
  refine ⟨?_, map_fst_pair_const _ _, rfl, ?_, map_fst_pair_const _ _, rfl⟩
  · intro pr hpr
    rcases List.mem_map.mp hpr with ⟨it, _, hit⟩
    simp only [clientCloseFlush, if_pos] at hit
    subst hit
    rfl
  · intro pr hpr
    rcases List.mem_map.mp hpr with ⟨it, _, hit⟩
    simp only [clientCloseFlush, Bool.false_eq_true, if_false] at hit
    subst hit
    exact ⟨rfl, fun e h => ItemFate.noConfusion h⟩

/-- Witness for C8 at a concrete two-element queue. -/
theorem router_close_flushes_pending_witness :
    (clientCloseFlush true "ECONNRESET" ([3, 7] : List Nat)).2 = [] :=
  (router_close_flushes_pending "ECONNRESET" [3, 7] (by decide)).2.2.1

/-- Claim C3 (code evaluation): calling findOrCreateWorker in find-only mode
(empty broker id) aborts with a Lua error before touching the registry: the
script's local `workerName` is still nil when the unconditional
`HSETNX gh workerName 0` runs, and redis.call rejects nil arguments.  The
registry state is returned unchanged, but the script does not return
`[0, false]` for a missing worker. -/
theorem findOnly_mode_always_errors (subs : String → Nat) (s : Registry)
    (nameArg workerIdArg : String) (attrs : WorkerAttrs)
    (now ttl forRecovery : Int) :
    findOrCreateWorker subs s "" nameArg workerIdArg attrs now ttl forRecovery =
      (s, Except.error "Lua redis lib command arguments must be strings or integers") := by
  unfold findOrCreateWorker
  simp

/-- Claim C10: the onCreateWorker RPC handler constructs and registers a
worker instance exactly when the findOrCreate result names this broker as
owner and no instance with that id exists; it then appends (never replaces)
the id.  In every other successful case the worker table is unchanged and
the winning pair is returned; existing entries are always preserved and a
duplicate-free table stays duplicate-free. -/
theorem onCreateWorker_no_replace (selfId : String) (workers : List String)
    (resCode : Int) (resArr : Option (List String)) (constructed : Bool)
    (ws' : List String) (br wid : String)
    (hres : onCreateWorkerHandler selfId workers resCode resArr =
      Except.ok (constructed, ws', br, wid)) :
    (constructed = true →
        br = selfId ∧ workers.contains wid = false ∧ ws' = workers ++ [wid]) ∧
      (constructed = false → ws' = workers) ∧
      (∀ w ∈ workers, w ∈ ws') ∧
      (workers.Nodup → ws'.Nodup) := by
  unfold onCreateWorkerHandler at hres
  by_cases hc : resCode ≠ 0
  · simp [hc] at hres
  · simp only [hc, if_false] at hres
    match resArr with
    | none => simp at hres
    | some arr =>
      simp only at hres
      by_cases hlen : arr.length < 3
      · simp [hlen] at hres
      · simp only [hlen, if_false] at hres
        by_cases hwin : (arr.getD 0 "" == selfId && !(workers.contains (arr.getD 2 ""))) = true
        · rw [if_pos hwin] at hres
          injection hres with h1
          injection h1 with e1 h2
          injection h2 with e2 h3
          injection h3 with e3 e4
          subst e1
          subst e2
          subst e3
          subst e4
          rcases Bool.and_eq_true _ _ |>.mp hwin with ⟨hbeq, hnc⟩
          rw [Bool.not_eq_eq_eq_not, Bool.not_true] at hnc
          have hwm : ¬ (arr.getD 2 "") ∈ workers := by
            intro hm
            have hnc2 : List.elem (arr.getD 2 "") workers = false := hnc
            rw [List.elem_eq_true_of_mem hm] at hnc2
            exact Bool.noConfusion hnc2
          refine ⟨fun _ => ⟨beq_iff_eq.mp hbeq, ?_, rfl⟩, by simp, ?_, ?_⟩
          · exact hnc
          · intro w hw; exact List.mem_append_left _ hw
          · intro hnd
            rw [List.nodup_append]
            exact ⟨hnd, List.nodup_singleton _,
              fun a ha hb => by
                rw [List.mem_singleton] at hb
                exact hwm (hb ▸ ha)⟩
        · rw [if_neg hwin] at hres
          injection hres with h1
          injection h1 with e1 h2
          injection h2 with e2 h3
          injection h3 with e3 e4
          subst e1
          subst e2
          subst e3
          subst e4
          exact ⟨fun hct => by exact absurd hct (by simp), fun _ => rfl,
            fun w hw => hw, fun hnd => hnd⟩

/-- Witness for C10: a concrete winning result for this broker with a fresh
worker id constructs the instance and appends the id to the table. -/
theorem onCreateWorker_no_replace_witness :
    ("br01" : String) = "br01" ∧
      (["MyWorker#1"] : List String).contains "MyWorker#2" = false ∧
      (["MyWorker#1", "MyWorker#2"] : List String) = ["MyWorker#1"] ++ ["MyWorker#2"] :=
  (onCreateWorker_no_replace "br01" ["MyWorker#1"] 0
    (some ["br01", "MyWorker", "MyWorker#2"]) true ["MyWorker#1", "MyWorker#2"]
    "br01" "MyWorker#2" rfl).1 rfl


theorem c1_loop_eval :
    fetchLoop c1State.wh 10 0 1 c1State.rz [] =
      ([("MyWorker#1", ⟨"MyWorker", none, ⟨true, false⟩⟩)], []) := by
  rw [fetchLoop_eq_step c1State.wh 10 0 1 c1State.rz [] "MyWorker#1" 5 (by decide)]
  rw [show fetchEmit c1State.wh 10 0 "MyWorker#1" 5 [] =
    [("MyWorker#1", ⟨"MyWorker", none, ⟨true, false⟩⟩)] from rfl]
  rw [if_pos (by decide :
    1 ≤ ([("MyWorker#1", (⟨"MyWorker", none, ⟨true, false⟩⟩ : WorkerInfo))] :
      List (String × WorkerInfo)).length)]
  decide

/-- Claim C1 (counterexample): a registry satisfying Invariant B, with one
recoverable worker awaiting recovery in `rz`, no longer satisfies it after
fetchForRecovery: the script removes the worker from `rz` but leaves its
`brokerId`-less record in `wh` (the record is only re-attached by the
recovering broker's later findOrCreate call), so a registry script can
leave a worker with no `brokerId` that is neither in `rz` nor corrupt. -/
theorem invB_not_preserved_by_fetch :
    invB c1State = true ∧
      invB (fetchWorkersToRecover c1State 10 0 1).1 = false := by
  refine ⟨by decide, ?_⟩
  simp only [fetchWorkersToRecover, c1_loop_eval]
  decide

/-- Claim C1 (amended): of the registry scripts, pickBroker
(getLeastLoadedBroker), healthCheck and salvage preserve Invariant B on
every registry state satisfying it, in every mode and whatever the pubsub
oracle answers; join, findOrCreate, findBroker, fetchForRecovery and
destroyWorker do not preserve it on all such states (they open the recovery
window in which a worker has no brokerId yet sits outside rz, or drop
wz entries while bh is missing). -/
theorem registry_scripts_preserve_invB (subs : String → Nat) (s : Registry)
    (cluster selfId target : String) (mode : Nat) (mr : Option Nat)
    (h : invB s = true) :
    invB (getLeastLoadedBroker subs s cluster mr).1 = true ∧
      invB (healthCheck subs s cluster selfId).1 = true ∧
      invB (salvageWorkers s cluster target mode).1 = true := by
  refine ⟨?_, ?_, salvageWorkers_invB s cluster target mode h⟩
  · obtain ⟨h1, h2, h3⟩ := pickLoop_fields subs cluster s.gh.chPfx (mr.getD 100 + 1) s
    exact (invB_congr _ s h1 h2 h3).trans h
  · obtain ⟨h1, h2, h3⟩ := healthCheck_fields subs s cluster selfId
    exact (invB_congr _ s h1 h2 h3).trans h

/-- Witness for C1's amended claim: a salvage of br01 in mode 1 on a
concrete Invariant-B-satisfying state keeps the invariant. -/
theorem registry_scripts_preserve_invB_witness :
    invB (salvageWorkers c6State "pvp" "br01" 1).1 = true :=
  (registry_scripts_preserve_invB (fun _ => 1) c6State "pvp" "br01" "br01" 1
    none (by decide)).2.2


/-- Claim C4 (counterexample): with `rz` holding two workers whose `wh`
records are missing and `maxFetch = 1`, the drain loop removes BOTH entries
from `rz` (the break fires only once the result list has reached `maxFetch`,
and nothing is ever emitted), so more than `maxFetch` entries are removed,
contradicting the claim's "at most maxFetch entries are removed from rz". -/
theorem c4_loop_eval : fetchLoop c4State.wh 10 0 1 c4State.rz [] = ([], []) := by
  rw [fetchLoop_eq_step c4State.wh 10 0 1 c4State.rz [] "a" 1 (by decide)]
  rw [show fetchEmit c4State.wh 10 0 "a" 1 [] = [] from rfl]
  rw [if_neg (by decide : ¬ (1 ≤ ([] : List (String × WorkerInfo)).length))]
  rw [fetchLoop_eq_step c4State.wh 10 0 1 (zrem c4State.rz "a") [] "b" 2 (by decide)]
  rw [show fetchEmit c4State.wh 10 0 "b" 2 [] = [] from rfl]
  rw [if_neg (by decide : ¬ (1 ≤ ([] : List (String × WorkerInfo)).length))]
  rw [fetchLoop_eq_none c4State.wh 10 0 1 (zrem (zrem c4State.rz "a") "b") []
    (by decide)]
  decide

theorem fetchWorkersToRecover_counterexample :
    zcard c4State.rz = 2 ∧
      (fetchWorkersToRecover c4State 10 0 1).1.rz = [] ∧
      (fetchWorkersToRecover c4State 10 0 1).2 = ([], 0) := by
  refine ⟨rfl, ?_, ?_⟩
  · simp only [fetchWorkersToRecover, c4_loop_eval]
  · simp only [fetchWorkersToRecover, c4_loop_eval]
    rfl

/-- Claim C4 (amended): for every call with maxFetch >= 1 (and duplicate-free
rz keys): at most maxFetch records are EMITTED, and entries are drained,
lowest-scored first, until maxFetch records have been emitted or rz is empty
(so more than maxFetch entries may be removed).  A processed worker's record
is emitted (with its id filled in) if and only if its wh record is decodable,
marked recoverable, and within TTL (ttl = 0 meaning unlimited); every
processed entry is removed from rz whether or not it was emitted (processed =
removed, and surviving entries keep their scores); every entry kept is
(score, member)-after every entry removed; and the result is the list of
emitted records plus the remaining cardinality of rz, the rest of the
registry untouched. -/
theorem fetchWorkersToRecover_spec (s : Registry) (now ttl : Int)
    (maxFetch : Nat) (hnd : (keysOf s.rz).Nodup) (hmax : 1 ≤ maxFetch) :
    (fetchWorkersToRecover s now ttl maxFetch).2.1.length ≤ maxFetch ∧
      (∀ wr ∈ (fetchWorkersToRecover s now ttl maxFetch).2.1,
        ∃ t, zscore s.rz wr.1 = some t ∧
          hget s.wh wr.1 = some (WhVal.ok wr.2) ∧
          wr.2.attributes.recoverable = true ∧
          (ttl == 0 || decide (now - t < ttl)) = true) ∧
      (∀ w t, zscore s.rz w = some t →
        zscore (fetchWorkersToRecover s now ttl maxFetch).1.rz w = none →
        ((∃ rec, (w, rec) ∈ (fetchWorkersToRecover s now ttl maxFetch).2.1) ↔
          emitOk s.wh now ttl w t)) ∧
      (∀ w t', zscore (fetchWorkersToRecover s now ttl maxFetch).1.rz w = some t' →
        zscore s.rz w = some t') ∧
      (∀ w t w' t', zscore s.rz w = some t →
        zscore (fetchWorkersToRecover s now ttl maxFetch).1.rz w = none →
        zscore (fetchWorkersToRecover s now ttl maxFetch).1.rz w' = some t' →
        entLE (w, t) (w', t')) ∧
      (fetchWorkersToRecover s now ttl maxFetch).2.2 =
        zcard (fetchWorkersToRecover s now ttl maxFetch).1.rz ∧
      (fetchWorkersToRecover s now ttl maxFetch).1.wh = s.wh ∧
      (fetchWorkersToRecover s now ttl maxFetch).1.gh = s.gh ∧
      (fetchWorkersToRecover s now ttl maxFetch).1.bh = s.bh ∧
      (fetchWorkersToRecover s now ttl maxFetch).1.cz = s.cz ∧
      (fetchWorkersToRecover s now ttl maxFetch).1.bz = s.bz ∧
      (fetchWorkersToRecover s now ttl maxFetch).1.wz = s.wz ∧
      (fetchWorkersToRecover s now ttl maxFetch).1.published = s.published := by
  refine ⟨?_, ?_, ?_, ?_, ?_, rfl, rfl, rfl, rfl, rfl, rfl, rfl, rfl⟩
  · exact fetchLoop_count s.wh now ttl maxFetch s.rz [] (by simpa using hmax)
  · intro wr hm
    rcases fetchLoop_emitted s.wh now ttl maxFetch s.rz [] hnd wr hm with h | h
    · simp at h
    · exact h
  · intro w t hsc hrem
    have h := fetchLoop_processed_iff s.wh now ttl maxFetch s.rz [] hnd w t hsc hrem
    refine h.trans ?_
    constructor
    · rintro (⟨rec, hrec⟩ | hok)
      · simp at hrec
      · exact hok
    · exact fun hok => Or.inr hok
  · exact fun w t' h => fetchLoop_rz_sub s.wh now ttl maxFetch s.rz [] w t' h
  · exact fun w t w' t' h1 h2 h3 =>
      fetchLoop_order s.wh now ttl maxFetch s.rz [] hnd w t w' t' h1 h2 h3

/-- Witness for C4's amended claim at the concrete two-entry state. -/
theorem fetchWorkersToRecover_spec_witness :
    (fetchWorkersToRecover c4State 10 0 1).2.1.length ≤ 1 :=
  (fetchWorkersToRecover_spec c4State 10 0 1 (by decide) (by decide)).1

/-- Claim C2: joining with a broker id whose `bh` record already exists and
decodes, while `wz:<brokerId>` holds a worker (unique keys) whose `wh`
record decodes with `attributes.recoverable = true`, returns `[0]` and
leaves `wz:<brokerId>` empty, `rz` containing that worker at its original
creation-time score, the worker's `brokerId` nulled, a fresh active broker
record with the given address, the broker scored by `load` in `cz:<cluster>`
and by `hashKey` in `bz:<cluster>`, and `gh.brokersAdded` incremented by
one. -/
theorem addBroker_stale_rejoin (s : Registry) (brokerId chPfxArg : String)
    (load : Int) (cluster addr : String) (hashKey : Int) (bi : BrokerInfo)
    (w : String) (t : Int) (wi : WorkerInfo)
    (hb : hget s.bh brokerId = some (BhVal.ok bi))
    (hnd : (keysOf (getZ s.wz brokerId)).Nodup)
    (hmem : (w, t) ∈ getZ s.wz brokerId)
    (hwh : hget s.wh w = some (WhVal.ok wi))
    (hrec : wi.attributes.recoverable = true) :
    (addBroker s brokerId chPfxArg load cluster addr hashKey).2 = [0] ∧
      getZ (addBroker s brokerId chPfxArg load cluster addr hashKey).1.wz brokerId = [] ∧
      zscore (addBroker s brokerId chPfxArg load cluster addr hashKey).1.rz w = some t ∧
      hget (addBroker s brokerId chPfxArg load cluster addr hashKey).1.wh w =
        some (WhVal.ok { wi with brokerId := none }) ∧
      hget (addBroker s brokerId chPfxArg load cluster addr hashKey).1.bh brokerId =
        some (BhVal.ok ⟨cluster, "active", some addr⟩) ∧
      zscore (getZ (addBroker s brokerId chPfxArg load cluster addr hashKey).1.cz cluster)
        brokerId = some load ∧
      zscore (getZ (addBroker s brokerId chPfxArg load cluster addr hashKey).1.bz cluster)
        brokerId = some hashKey ∧
      (addBroker s brokerId chPfxArg load cluster addr hashKey).1.gh.brokersAdded =
        s.gh.brokersAdded + 1 := by
  unfold addBroker
  simp only [hb]
  refine ⟨trivial, ?_, ?_, ?_, ?_, ?_, ?_, ?_⟩
  · rw [getZ_setZ]
    simp
  · exact (salvageDrain_recoverable _ _ _ _ w t wi hnd hmem hwh hrec).2
  · exact (salvageDrain_recoverable _ _ _ _ w t wi hnd hmem hwh hrec).1
  · rw [hget_hset]
    simp
  · rw [getZ_setZ, if_pos rfl, zscore_zadd, if_pos rfl]
  · rw [getZ_setZ, if_pos rfl, zscore_zadd, if_pos rfl]
  · rw [(salvageDrain_gh_fields _ _ _ _ _).1]


/-- Witness for C2: the S2 scenario, re-joining br01 with a recoverable
stale worker at creation time 777 leaves that worker in `rz` at score
777. -/
theorem addBroker_stale_rejoin_witness :
    zscore (addBroker c2State "br01" "test:ch" 10 "pvp"
        "1.2.3.4:6690" 3437877555704920).1.rz "MyWorker#1" = some 777 :=
  (addBroker_stale_rejoin c2State "br01" "test:ch" 10 "pvp" "1.2.3.4:6690"
    3437877555704920 ⟨"pvp", "active", some "1.2.3.4:6690"⟩ "MyWorker#1" 777
    ⟨"MyWorker", some "br01", ⟨true, false⟩⟩ (by decide) (by decide) (by decide)
    (by decide) (by decide)).2.2.1

/-- Claim C9: generateHashKey equals the value obtained by zeroing the top
11 bits of the first 8 MD5-digest bytes and reading them as a 64-bit
big-endian integer (equivalently, that big-endian read modulo 2^53), and is
therefore always below 2^53, exactly representable as a registry score. -/
theorem generateHashKey_spec (b0 b1 b2 b3 b4 b5 b6 b7 : Nat) (rest : List Nat)
    (h0 : b0 < 256) (h1 : b1 < 256) (h2 : b2 < 256) (h3 : b3 < 256)
    (h4 : b4 < 256) (h5 : b5 < 256) (h6 : b6 < 256) (h7 : b7 < 256) :
    generateHashKey (b0 :: b1 :: b2 :: b3 :: b4 :: b5 :: b6 :: b7 :: rest) =
        hashKeySpecOf (b0 :: b1 :: b2 :: b3 :: b4 :: b5 :: b6 :: b7 :: rest) ∧
      generateHashKey (b0 :: b1 :: b2 :: b3 :: b4 :: b5 :: b6 :: b7 :: rest) < 2 ^ 53 := by
  have hm : b1 &&& 31 = b1 % 32 := by
    have h := Nat.and_pow_two_sub_one_eq_mod b1 5
    norm_num at h
    exact h
  unfold generateHashKey hashKeySpecOf beReadBytes readUInt32BE
  simp only [List.take_succ_cons, List.take_zero, List.foldl_cons, List.foldl_nil]
  rw [hm]
  constructor
  · omega
  · omega

/-- Witness for C9 at a concrete digest (the all-ones digest). -/
theorem generateHashKey_spec_witness :
    generateHashKey [255, 255, 255, 255, 255, 255, 255, 255,
        255, 255, 255, 255, 255, 255, 255, 255] < 2 ^ 53 :=
  (generateHashKey_spec 255 255 255 255 255 255 255 255
    [255, 255, 255, 255, 255, 255, 255, 255]
    (by decide) (by decide) (by decide) (by decide)
    (by decide) (by decide) (by decide) (by decide)).2

/-- Claim C5: when healthCheck finds the next broker in the bz ring (rank of
self plus one, modulo ring size) present with a decodable record carrying an
address and status `active`, and the liveness probe on that broker's unicast
channel reports zero subscribers, it returns code 1 and afterwards that
broker's record has status `invalid`, the broker is a member of neither `cz`
nor `bz` of the cluster, and a salvage signal naming that broker has been
published on the broadcast channel. -/
theorem healthCheck_dead_next_peer (subs : String → Nat) (s : Registry)
    (cluster selfId nextId : String) (r n : Nat) (sc : Int)
    (brInfo : BrokerInfo) (cp : String)
    (hn : zcard (getZ s.bz cluster) = n) (hn2 : 2 ≤ n)
    (hr : zrank (getZ s.bz cluster) selfId = some r)
    (hnext : zrangeAt (getZ s.bz cluster) ((r + 1) % n) = some (nextId, sc))
    (hb : hget s.bh nextId = some (BhVal.ok brInfo))
    (haddr : brInfo.addr ≠ none) (hst : brInfo.st = "active")
    (hcp : s.gh.chPfx = some cp)
    (hdead : subs (cp ++ ":" ++ nextId) = 0) :
    (healthCheck subs s cluster selfId).2 = Except.ok HCRes.salvaged1 ∧
      hget (healthCheck subs s cluster selfId).1.bh nextId =
        some (BhVal.ok { brInfo with st := "invalid" }) ∧
      zmem (getZ (healthCheck subs s cluster selfId).1.cz cluster) nextId = false ∧
      zmem (getZ (healthCheck subs s cluster selfId).1.bz cluster) nextId = false ∧
      (cp ++ ":*", PubMsg.salvageSig brInfo.cn nextId) ∈
        (healthCheck subs s cluster selfId).1.published := by
  have hne0 : (n == 0) = false := by simp; omega
  have hne1 : (n == 1) = false := by simp; omega
  unfold healthCheck
  simp only [hn, hne0, Bool.false_eq_true, if_false, hr, hnext, hb, hcp, hne1,
    hst, hdead, haddr, beq_self_eq_true, if_true]
  refine ⟨trivial, ?_, ?_, ?_, ?_⟩
  · simp [hget_hset]
  · simp [zmem, getZ_setZ, zscore_zrem]
  · simp [zmem, getZ_setZ, zscore_zrem]
  · simp


/-- Witness for C5: the S6 scenario, br01 health-checking a dead br02,
returns code 1. -/
theorem healthCheck_dead_next_peer_witness :
    (healthCheck (fun _ => 0) c5State "pvp" "br01").2 =
      Except.ok HCRes.salvaged1 :=
  (healthCheck_dead_next_peer (fun _ => 0) c5State "pvp" "br01" "br02" 0 2 234
    ⟨"pvp", "active", some "127.0.0.1:5678"⟩ "test:ch" (by decide) (by decide)
    (by decide) (by decide) (by decide) (by decide) (by decide) (by decide)
    rfl).1

end DW
